import Mathlib

/-!
Verification development for the GreenGraphConnected repository.

Shallow embedding of the core connection / merge engine:
  * `src/connections/pt_to_pt.py`   (PTWalkingConnectionBuilder)
  * `src/connections/car_to_pt.py`  (CarToPTConnector)
  * `src/graph_integration/merge_graphs.py` (create_combined_graph)

Graphs are `networkx.DiGraph` objects: at most one directed edge per ordered
node pair; `add_edge` on an existing pair performs a `dict.update` of the
attribute dictionary.  We model node identifiers as `String`, attribute
dictionaries as insertion-ordered association lists over a small value type,
and the graph as explicit node/edge lists.

The exact geodesic metric (the external `geopy.distance.geodesic` call) and
the trigonometric degree conversion (`np.cos(np.radians(...))`) have no
source in this repository; every general theorem is stated parametrically in
the metric `dist` and in the cosine evaluator `cosdeg`, and concrete
witnesses instantiate them with simple rational stand-ins.
-/

namespace GreenGraph

/-- Attribute values appearing in node / edge attribute dictionaries:
strings and (rational stand-ins for Python float/int) numbers. -/
inductive AVal where
  | s (v : String)
  | q (v : ℚ)
deriving DecidableEq, Repr

/-- Python truthiness of an attribute value (`if lat and lon:` in
`car_to_pt.build_spatial_index`): `0`, `0.0` and `""` are falsy. -/
def AVal.truthy : AVal → Bool
  | .s v => v ≠ ""
  | .q v => v ≠ 0

/-- Numeric reading of an attribute value used as a coordinate. -/
def AVal.toQ : AVal → ℚ
  | .s _ => 0
  | .q v => v

/-- Whether an attribute value is numeric (a string coordinate makes the
`KDTree` construction raise in the car connector). -/
def AVal.isQ : AVal → Bool
  | .s _ => false
  | .q _ => true

/-- An insertion-ordered attribute dictionary (Python `dict`). -/
abbrev Attrs := List (String × AVal)

/-- `d.get(k)` on an attribute dictionary. -/
def attrGet (a : Attrs) (k : String) : Option AVal :=
  (a.find? (fun kv => kv.1 == k)).map (·.2)

/-- `d[k] = v`: replace in place when the key exists, append otherwise
(a Python dict never holds duplicate keys, so replacing the first
occurrence is the dict semantics). -/
def attrSet : Attrs → String → AVal → Attrs
  | [], k, v => [(k, v)]
  | kv :: rest, k, v =>
      if kv.1 == k then (k, v) :: rest else kv :: attrSet rest k v

/-- `d.update(upd)` — the semantics of `networkx` `add_edge` on an existing
edge: every key of `upd` is written, other keys are kept. -/
def attrUpdate (a upd : Attrs) : Attrs :=
  upd.foldl (fun acc kv => attrSet acc kv.1 kv.2) a

/-- A `networkx.DiGraph`: node list with attributes, and at most one
directed edge per ordered pair (maintained by the operations below). -/
structure DiGraph where
  nodes : List (String × Attrs)
  edges : List (String × String × Attrs)
deriving DecidableEq, Repr

def DiGraph.empty : DiGraph := ⟨[], []⟩

def hasNode (g : DiGraph) (u : String) : Bool :=
  g.nodes.any (fun nd => nd.1 == u)

/-- `G.add_node(u, **a)` / an entry of `add_nodes_from(...)`: update the
attribute dictionary of an existing node, append a new node otherwise. -/
def nodeWrite : List (String × Attrs) → String → Attrs → List (String × Attrs)
  | [], u, a => [(u, a)]
  | nd :: rest, u, a =>
      if nd.1 == u then (u, attrUpdate nd.2 a) :: rest else nd :: nodeWrite rest u a

def addNodeData (g : DiGraph) (u : String) (a : Attrs) : DiGraph :=
  { g with nodes := nodeWrite g.nodes u a }

def ensureNode (g : DiGraph) (u : String) : DiGraph :=
  if hasNode g u then g else { g with nodes := g.nodes ++ [(u, [])] }

def hasEdge (g : DiGraph) (u v : String) : Bool :=
  g.edges.any (fun e => e.1 == u && e.2.1 == v)

def edgeData (g : DiGraph) (u v : String) : Option Attrs :=
  (g.edges.find? (fun e => e.1 == u && e.2.1 == v)).map (·.2.2)

def edgeGet (g : DiGraph) (u v k : String) : Option AVal :=
  (edgeData g u v).bind (fun a => attrGet a k)

/-- Edge-list write: update the (unique) existing entry for the ordered
pair in place, append a fresh entry otherwise. -/
def edgeWrite : List (String × String × Attrs) → String → String → Attrs →
    List (String × String × Attrs)
  | [], u, v, a => [(u, v, a)]
  | e :: rest, u, v, a =>
      if e.1 == u && e.2.1 == v then (u, v, attrUpdate e.2.2 a) :: rest
      else e :: edgeWrite rest u v a

/-- `G.add_edge(u, v, **a)`: inserts missing endpoints, updates the
attribute dictionary when the edge already exists, appends otherwise. -/
def addEdge (g : DiGraph) (u v : String) (a : Attrs) : DiGraph :=
  let g1 := ensureNode (ensureNode g u) v
  { g1 with edges := edgeWrite g1.edges u v a }

/-- `G.remove_edge(u, v)`. -/
def removeEdge (g : DiGraph) (u v : String) : DiGraph :=
  { g with edges := g.edges.filter (fun e => !(e.1 == u && e.2.1 == v)) }

def addNodesFrom (g : DiGraph) (ns : List (String × Attrs)) : DiGraph :=
  ns.foldl (fun acc nd => addNodeData acc nd.1 nd.2) g

def addEdgesFrom (g : DiGraph) (es : List (String × String × Attrs)) : DiGraph :=
  es.foldl (fun acc e => addEdge acc e.1 e.2.1 e.2.2) g

/-- Well-formedness of an input graph: distinct node names and at most one
edge per ordered pair (every graph a `networkx.DiGraph` can hold). -/
def GraphWF (g : DiGraph) : Prop :=
  (g.nodes.map (fun nd => nd.1)).Nodup ∧
  (g.edges.map (fun e => (e.1, e.2.1))).Nodup

instance (g : DiGraph) : Decidable (GraphWF g) := by
  unfold GraphWF; infer_instance

/-! ## Configuration constants (`src/config_integration.py`) -/

def MAX_WALKING_DISTANCE_M : ℚ := 300

def WALKING_SPEED : ℚ := 7/5

/-! ## PT-to-PT walking connector (`src/connections/pt_to_pt.py`) -/

/-- The tag of a derived PT walking edge:
`data.get('mode') == 'walk' and data.get('edge_type') == 'pt_transfer'`. -/
def isWalkPt (a : Attrs) : Bool :=
  attrGet a "mode" == some (.s "walk") && attrGet a "edge_type" == some (.s "pt_transfer")

/-- Whether the directed edge `u → v` of `g` is tagged `walk`/`pt_transfer`. -/
def walkPtEdge (g : DiGraph) (u v : String) : Bool :=
  (edgeData g u v).elim false isWalkPt

/-- Step 1 of `add_walking_edges`: collect every `walk`/`pt_transfer` edge
and remove it. -/
def clearWalkEdges (g : DiGraph) : DiGraph :=
  { g with edges := g.edges.filter (fun e => !isWalkPt e.2.2) }

/-- `extract_pt_nodes`: nodes that carry both a `lat` and a `lon` key
(key presence, not truthiness, in this connector). -/
def extract_pt_nodes (g : DiGraph) : List (String × Attrs) :=
  g.nodes.filter (fun nd => (attrGet nd.2 "lat").isSome && (attrGet nd.2 "lon").isSome)

def nodeCoord (nd : String × Attrs) : ℚ × ℚ :=
  (((attrGet nd.2 "lat").getD (.q 0)).toQ, ((attrGet nd.2 "lon").getD (.q 0)).toQ)

/-- Squared planar distance in degree coordinates — the metric of the
`scipy.spatial.KDTree` over `[lat, lon]` rows (squared to stay rational). -/
def sqDeg (p q : ℚ × ℚ) : ℚ :=
  (p.1 - q.1) ^ 2 + (p.2 - q.2) ^ 2

def coordAt (coords : List (ℚ × ℚ)) (i : ℕ) : ℚ × ℚ := coords.getD i (0, 0)

def idAt (ids : List String) (i : ℕ) : String := ids.getD i ""

/-- `np.mean(coords[:, 0])`. -/
def meanLat (coords : List (ℚ × ℚ)) : ℚ :=
  (coords.map (fun c => c.1)).sum / coords.length

/-- `search_radius_degrees = max_walk_distance / min(111320, 111320*cos(radians(lat_avg)))`,
with the cosine evaluator abstract (`cosdeg` models `np.cos ∘ np.radians`). -/
def searchRadiusDeg (cosdeg : ℚ → ℚ) (maxd : ℚ) (coords : List (ℚ × ℚ)) : ℚ :=
  maxd / min 111320 (111320 * cosdeg (meanLat coords))

/-- `tree.query_ball_point(coords[i], r)`: all indices within planar radius
`r` of point `i` (boundary included). -/
def ballIndices (coords : List (ℚ × ℚ)) (r : ℚ) (i : ℕ) : List ℕ :=
  (List.range coords.length).filter
    (fun j => sqDeg (coordAt coords i) (coordAt coords j) ≤ r ^ 2)

/-- Python `round` (banker's rounding) on rationals. -/
def roundHalfEven (y : ℚ) : ℤ :=
  let f := Int.floor y
  let r := y - f
  if r < 1/2 then f else if 1/2 < r then f + 1 else if f % 2 = 0 then f else f + 1

/-- `round(x, 1)` — only used for the cosmetic `walk_distance_m` /
`walk_time_min` attributes. -/
def pyRound1 (y : ℚ) : ℚ := (roundHalfEven (10 * y) : ℚ) / 10

/-- The attribute dictionary written by `_add_walking_edge`
(`γ` is the walking speed). -/
def walkEdgeAttrs (γ d : ℚ) : Attrs :=
  [("mode", .s "walk"), ("distance", .q d), ("time", .q (d / γ)),
   ("emissions", .q 0), ("edge_type", .s "pt_transfer"),
   ("walk_distance_m", .q (pyRound1 d)), ("walk_time_min", .q (pyRound1 (d / γ / 60)))]

/-- `_add_walking_edge(source, target, distance)`. -/
def add_walking_edge (γ : ℚ) (g : DiGraph) (u v : String) (d : ℚ) : DiGraph :=
  addEdge g u v (walkEdgeAttrs γ d)

/-- The mutable state of the `add_connections` loops: the graph plus the
stats counters and the `pairs_added` set. -/
structure RunState where
  g : DiGraph
  edges_added : ℕ
  nodes_checked : ℕ
  skipped_existing : ℕ
  skipped_too_far : ℕ
  pairs : Finset (String × String)

/-- `tuple(sorted([node_id, neighbor_id]))`. -/
def sortPair (u v : String) : String × String :=
  if u < v then (u, v) else (v, u)

/-- The returned stats dictionary. -/
structure PTStats where
  edges_added : ℕ
  unique_pairs : ℕ
  nodes_checked : ℕ
  skipped_existing : ℕ
  skipped_too_far : ℕ
deriving DecidableEq, Repr

/-- One iteration of the inner loop of `add_connections` (`i` fixed,
`j` a ball index): skip self, then the exact-distance check, then the
existing-edge check (in the `i → j` direction only), else insert the two
directed walking edges. -/
def visitStep (dist : ℚ × ℚ → ℚ × ℚ → ℚ) (maxd γ : ℚ)
    (ids : List String) (coords : List (ℚ × ℚ)) (i : ℕ)
    (st : RunState) (j : ℕ) : RunState :=
  if i == j then st
  else
    let d := dist (coordAt coords i) (coordAt coords j)
    if maxd < d then { st with skipped_too_far := st.skipped_too_far + 1 }
    else
      let u := idAt ids i
      let v := idAt ids j
      if hasEdge st.g u v then { st with skipped_existing := st.skipped_existing + 1 }
      else
        { st with
          g := add_walking_edge γ (add_walking_edge γ st.g u v d) v u d,
          edges_added := st.edges_added + 2,
          pairs := insert (sortPair u v) st.pairs }

/-- One iteration of the outer loop of `add_connections`. -/
def outerStep (dist : ℚ × ℚ → ℚ × ℚ → ℚ) (maxd γ r : ℚ)
    (ids : List String) (coords : List (ℚ × ℚ))
    (st : RunState) (i : ℕ) : RunState :=
  (ballIndices coords r i).foldl (visitStep dist maxd γ ids coords i)
    { st with nodes_checked := st.nodes_checked + 1 }

/-- `add_connections(node_ids, coords)`: returns the mutated graph and the
stats dictionary. -/
def add_connections (dist : ℚ × ℚ → ℚ × ℚ → ℚ) (cosdeg : ℚ → ℚ) (maxd γ : ℚ)
    (g : DiGraph) (ids : List String) (coords : List (ℚ × ℚ)) : DiGraph × PTStats :=
  let r := searchRadiusDeg cosdeg maxd coords
  let fin := (List.range ids.length).foldl (outerStep dist maxd γ r ids coords)
    ⟨g, 0, 0, 0, 0, ∅⟩
  (fin.g, ⟨fin.edges_added, fin.pairs.card, fin.nodes_checked,
           fin.skipped_existing, fin.skipped_too_far⟩)

/-- The result of `add_walking_edges`: either the structured error
dictionary `{"error": "no_pt_nodes"}` or the stats dictionary. -/
inductive PTResult where
  | err (msg : String)
  | ok (stats : PTStats)
deriving DecidableEq, Repr

/-- `PTWalkingConnectionBuilder.add_walking_edges`: clear old
`walk`/`pt_transfer` edges, extract coordinate-bearing nodes, bail out with
`no_pt_nodes` when there are none, otherwise generate the walking
connections.  (`_analyze_by_mode` only logs and is omitted.) -/
def add_walking_edges (dist : ℚ × ℚ → ℚ × ℚ → ℚ) (cosdeg : ℚ → ℚ) (maxd γ : ℚ)
    (g0 : DiGraph) : DiGraph × PTResult :=
  let g1 := clearWalkEdges g0
  let pts := extract_pt_nodes g1
  if pts.isEmpty then (g1, .err "no_pt_nodes")
  else
    let res := add_connections dist cosdeg maxd γ g1 (pts.map (fun nd => nd.1))
      (pts.map nodeCoord)
    (res.1, .ok res.2)

/-! ## Car-to-PT connector (`src/connections/car_to_pt.py`) -/

/-- A train-station record from `train_stations.json`. -/
structure Station where
  id : String
  name : String
  lat : ℚ
  lon : ℚ
deriving DecidableEq, Repr

/-- A connection record as built by `find_connections` and persisted to
`connections.json`. -/
structure ConnRecord where
  station_id : String
  station_name : String
  station_lat : ℚ
  station_lon : ℚ
  road_node : String
  road_lat : ℚ
  road_lon : ℚ
  distance : ℚ
  walk_time : ℚ
deriving DecidableEq, Repr

/-- The filter loop of `build_spatial_index` (`car_to_pt.py` lines 60-69):
the source reads `lat = node_data.get('lat')` and keeps the node only under
`if lat and lon:` — Python truthiness, so a missing key, `None`, `0`,
`0.0` or `""` all exclude the node.  The surviving raw attribute values are
kept so that the numeric check of the KDTree construction can be modelled. -/
def spatialRows (g : DiGraph) : List (String × AVal × AVal) :=
  g.nodes.filterMap (fun nd =>
    match attrGet nd.2 "lat", attrGet nd.2 "lon" with
    | some lv, some lnv =>
        if lv.truthy && lnv.truthy then some (nd.1, lv, lnv) else none
    | _, _ => none)

/-- `build_spatial_index` (`car_to_pt.py` lines 55-74): the truthiness
filter followed by `np.array(...)` and `KDTree(...)` (lines 71-72).  When
ZERO nodes survive the filter the array is a 1-D empty array and `KDTree`
raises `ValueError`; a surviving non-numeric coordinate value also makes
the construction raise.  Otherwise the indexed rows are returned. -/
def build_spatial_index (g : DiGraph) : Except String (List (String × ℚ × ℚ)) :=
  let rows := spatialRows g
  if rows.isEmpty || rows.any (fun r => !r.2.1.isQ || !r.2.2.isQ) then .error "ValueError"
  else .ok (rows.map (fun r => (r.1, r.2.1.toQ, r.2.2.toQ)))

def roadCoord (roads : List (String × ℚ × ℚ)) (j : ℕ) : ℚ × ℚ :=
  ((roads.getD j ("", 0, 0)).2.1, (roads.getD j ("", 0, 0)).2.2)

def roadId (roads : List (String × ℚ × ℚ)) (j : ℕ) : String :=
  (roads.getD j ("", 0, 0)).1

/-- `search_radius_deg = max_distance / 111320` — the flat conversion of
this connector (deliberately distinct from the latitude-corrected one in
`pt_to_pt.py`). -/
def flatRadiusDeg (maxd : ℚ) : ℚ := maxd / 111320

/-- `road_tree.query_ball_point(station_coord, search_radius_deg)`. -/
def carBall (roads : List (String × ℚ × ℚ)) (p : ℚ × ℚ) (r : ℚ) : List ℕ :=
  (List.range roads.length).filter (fun j => sqDeg p (roadCoord roads j) ≤ r ^ 2)

/-- The `for idx in indices:` minimum scan: `closest_road = None`,
`min_distance = inf`, update when
`distance < min_distance and distance <= max_distance`. -/
def closestScan (dist : ℚ × ℚ → ℚ × ℚ → ℚ) (maxd : ℚ) (p : ℚ × ℚ)
    (roads : List (String × ℚ × ℚ)) (idxs : List ℕ) : Option (String × ℚ) :=
  idxs.foldl (fun acc j =>
    let d := dist p (roadCoord roads j)
    match acc with
    | none => if d ≤ maxd then some (roadId roads j, d) else none
    | some (b, m) => if d < m ∧ d ≤ maxd then some (roadId roads j, d) else some (b, m))
    none

/-- Accumulator of the `for station in self.train_stations:` loop. -/
structure CarState where
  conns : List ConnRecord
  connected : ℕ
  too_far : ℕ
deriving DecidableEq, Repr

/-- One station of `find_connections`: empty coarse candidate set counts the
station as too far; otherwise scan for the closest candidate within budget;
`if closest_road:` is again Python truthiness on the node id.  The record's
road coordinates are read back from the car graph's node entry, which for a
well-formed graph is the indexed coordinate pair. -/
def stationStep (dist : ℚ × ℚ → ℚ × ℚ → ℚ) (maxd γ : ℚ)
    (roads : List (String × ℚ × ℚ)) (st : CarState) (s : Station) : CarState :=
  let idxs := carBall roads (s.lat, s.lon) (flatRadiusDeg maxd)
  if idxs.isEmpty then { st with too_far := st.too_far + 1 }
  else
    match closestScan dist maxd (s.lat, s.lon) roads idxs with
    | some (rid, m) =>
        if rid ≠ "" then
          let rc := (roads.find? (fun rd => rd.1 == rid)).getD ("", 0, 0)
          { st with
            conns := st.conns ++
              [⟨s.id, s.name, s.lat, s.lon, rid, rc.2.1, rc.2.2, m, m / γ⟩],
            connected := st.connected + 1 }
        else { st with too_far := st.too_far + 1 }
    | none => { st with too_far := st.too_far + 1 }

/-- `find_connections`: the whole loop, raising
`ValueError("No connections found")` when no station connects. -/
def find_connections (dist : ℚ × ℚ → ℚ × ℚ → ℚ) (maxd γ : ℚ)
    (stations : List Station) (roads : List (String × ℚ × ℚ)) :
    Except String (List ConnRecord) :=
  let fin := stations.foldl (stationStep dist maxd γ roads) ⟨[], 0, 0⟩
  if fin.connected == 0 then .error "No connections found" else .ok fin.conns

/-! ## Graph merge (`src/graph_integration/merge_graphs.py`) -/

/-- `data.get('mode') in ['tram', 'bus', 'train']`. -/
def isTransport (a : Attrs) : Bool :=
  attrGet a "mode" == some (.s "tram") || attrGet a "mode" == some (.s "bus") ||
    attrGet a "mode" == some (.s "train")

/-- Backfill pass 1: for every `walk`/`pt_transfer` edge of the PT graph,
add the reverse edge to the combined graph when absent (iterates over
`G_pt.edges`, a fixed snapshot, as in the source). -/
def backfillWalk (gpt : DiGraph) (g : DiGraph) : DiGraph :=
  gpt.edges.foldl (fun acc e =>
    if isWalkPt e.2.2 && !hasEdge acc e.2.1 e.1 then addEdge acc e.2.1 e.1 e.2.2 else acc) g

/-- Backfill pass 2: for every tram/bus/train edge, add the reverse when
absent.  The source iterates over the live `G_combined.edges`; an edge
added by this pass never triggers a further addition (its own reverse is
the edge it was copied from), so iterating over the snapshot of the edge
list produces the same graph. -/
def backfillTransport (g : DiGraph) : DiGraph :=
  g.edges.foldl (fun acc e =>
    if isTransport e.2.2 && !hasEdge acc e.2.1 e.1 then addEdge acc e.2.1 e.1 e.2.2 else acc) g

/-- The attribute dictionary of a car-to-PT connection edge. -/
def connEdgeAttrs (c : ConnRecord) : Attrs :=
  [("mode", .s "walk"), ("distance", .q c.distance), ("time", .q c.walk_time),
   ("emissions", .q 0), ("edge_type", .s "car_to_pt_transfer"),
   ("station_name", .s c.station_name)]

/-- The `for conn in connections:` loop adding the one-way edges. -/
def addConnectionEdges (g : DiGraph) (cs : List ConnRecord) : DiGraph :=
  cs.foldl (fun acc c => addEdge acc c.road_node c.station_id (connEdgeAttrs c)) g

/-- `create_combined_graph(G_pt, G_car, connections)` (the debug-only
counting block and log statements are omitted; they do not mutate). -/
def create_combined_graph (gpt gcar : DiGraph) (conns : List ConnRecord) : DiGraph :=
  let g1 := addEdgesFrom (addNodesFrom DiGraph.empty gpt.nodes) gpt.edges
  let g2 := backfillWalk gpt g1
  let g3 := backfillTransport g2
  let g4 := addEdgesFrom (addNodesFrom g3 gcar.nodes) gcar.edges
  addConnectionEdges g4 conns

/-! ## Concrete stand-ins for the external numeric functions

General theorems below are parametric in the metric and the cosine
evaluator; these concrete rational functions are used only to build
witnesses and counterexamples on explicit inputs. -/

/-- Rational absolute value written with an explicit comparison (the
lattice-derived `abs` of Mathlib does not reduce by kernel computation,
which the concrete witnesses below rely on). -/
def qabs (x : ℚ) : ℚ := if x < 0 then -x else x

/-- A concrete symmetric metric used to instantiate the abstract `dist`
parameter in witnesses (scaled taxicab distance on degree coordinates,
111320 m per degree). -/
def distTaxicab (p q : ℚ × ℚ) : ℚ :=
  111320 * (qabs (p.1 - q.1) + qabs (p.2 - q.2))

/-- A concrete stand-in for `np.cos(np.radians(x))` used in witnesses whose
coordinates average to latitude 0, where the cosine is exactly 1. -/
def cosOne : ℚ → ℚ := fun _ => 1

/-! ## Pure characterization of the `add_connections` visit outcomes

The nested loops of `add_connections` visit the ordered index pair `(i, j)`
during outer iteration `i` for every `j` in the ball of `i`.  A pair of
distinct stops is therefore visited twice, first as `(min, max)` and then
as `(max, min)`, and whether a visit inserts walking edges is a pure
function of the pre-loop graph.  These predicates express that function;
the invariant `PTInv` below ties them to the evolving loop state. -/

/-- Membership of `j` in the coarse ball around `i` (a pure reading of
`ballIndices`). -/
def inBallB (coords : List (ℚ × ℚ)) (r : ℚ) (i j : ℕ) : Bool :=
  decide (j < coords.length) &&
    decide (sqDeg (coordAt coords i) (coordAt coords j) ≤ r ^ 2)

/-- The exact-distance test of the visit `(i, j)` passes
(`distance > max_walk_distance` fails). -/
def dOKB (dist : ℚ × ℚ → ℚ × ℚ → ℚ) (maxd : ℚ) (coords : List (ℚ × ℚ)) (i j : ℕ) : Bool :=
  !decide (maxd < dist (coordAt coords i) (coordAt coords j))

/-- The first visit `(i, j)` (with `i < j`) of a pair inserts walking
edges: in range, within budget, and no pre-existing `i → j` edge. -/
def addFirstB (dist : ℚ × ℚ → ℚ × ℚ → ℚ) (maxd r : ℚ)
    (ids : List String) (coords : List (ℚ × ℚ)) (H0 : DiGraph) (i j : ℕ) : Bool :=
  inBallB coords r i j && dOKB dist maxd coords i j &&
    !hasEdge H0 (idAt ids i) (idAt ids j)

/-- The visit `(i, j)` inserts walking edges.  For `i > j` the pair was
already visited as `(j, i)`; the visit checks `has_edge(i → j)` against the
graph as mutated by that earlier visit. -/
def addAtB (dist : ℚ × ℚ → ℚ × ℚ → ℚ) (maxd r : ℚ)
    (ids : List String) (coords : List (ℚ × ℚ)) (H0 : DiGraph) (i j : ℕ) : Bool :=
  if i < j then addFirstB dist maxd r ids coords H0 i j
  else if j < i then
    inBallB coords r i j && dOKB dist maxd coords i j &&
      !hasEdge H0 (idAt ids i) (idAt ids j) &&
      !addFirstB dist maxd r ids coords H0 j i
  else false

/-- The ordered string pair `(x, y)` is one of the two directions of an
index pair selected by `W`. -/
def DirMatch (ids : List String) (W : ℕ → ℕ → Prop) (x y : String) : Prop :=
  ∃ i j, i < ids.length ∧ j < ids.length ∧ W i j ∧
    ((x = idAt ids i ∧ y = idAt ids j) ∨ (x = idAt ids j ∧ y = idAt ids i))

/-- The observable attribute values of a freshly written walking edge. -/
def WalkValues (g : DiGraph) (u v : String) (γ d : ℚ) : Prop :=
  edgeGet g u v "mode" = some (.s "walk") ∧
  edgeGet g u v "edge_type" = some (.s "pt_transfer") ∧
  edgeGet g u v "distance" = some (.q d) ∧
  edgeGet g u v "time" = some (.q (d / γ)) ∧
  edgeGet g u v "emissions" = some (.q 0)

/-- Loop invariant of `add_connections` relative to the pre-loop graph
`H0` and a predicate `W` selecting the insertion visits performed so far. -/
structure PTInv (dist : ℚ × ℚ → ℚ × ℚ → ℚ) (γ : ℚ)
    (ids : List String) (coords : List (ℚ × ℚ))
    (H0 : DiGraph) (W : ℕ → ℕ → Prop) (st : RunState) : Prop where
  nodesEq : st.g.nodes = H0.nodes
  hasEq : ∀ x y, hasEdge st.g x y = true ↔
    (hasEdge H0 x y = true ∨ DirMatch ids W x y)
  dataAdded : ∀ i j, W i j →
    WalkValues st.g (idAt ids i) (idAt ids j) γ
      (dist (coordAt coords i) (coordAt coords j)) ∧
    WalkValues st.g (idAt ids j) (idAt ids i) γ
      (dist (coordAt coords i) (coordAt coords j))
  dataOld : ∀ x y, ¬ DirMatch ids W x y → edgeData st.g x y = edgeData H0 x y
  pairsMem : ∀ p, p ∈ st.pairs ↔
    ∃ i j, i < ids.length ∧ j < ids.length ∧ W i j ∧ p = sortPair (idAt ids i) (idAt ids j)
  edgesCard : st.edges_added = 2 * st.pairs.card

/-- Context hypotheses of the characterization: distinct node identifiers,
matching list lengths, every indexed identifier names a node of the
pre-loop graph. -/
structure PTHyp (ids : List String) (coords : List (ℚ × ℚ)) (H0 : DiGraph) : Prop where
  nodup : ids.Nodup
  len : coords.length = ids.length
  inGraph : ∀ i, i < ids.length → hasNode H0 (idAt ids i) = true

/-- Number of inner-loop iterations of outer index `i` over the list `l`
of ball indices that pass the self- and distance-tests (each such visit
either skips an existing edge or inserts a pair of walking edges). -/
def dokCountOn (dist : ℚ × ℚ → ℚ × ℚ → ℚ) (maxd : ℚ) (coords : List (ℚ × ℚ))
    (i : ℕ) (l : List ℕ) : ℕ :=
  (l.filter (fun j => !(i == j) && dOKB dist maxd coords i j)).length

/-- Number of inner-loop iterations counted as `skipped_too_far`. -/
def tooFarCountOn (dist : ℚ × ℚ → ℚ × ℚ → ℚ) (maxd : ℚ) (coords : List (ℚ × ℚ))
    (i : ℕ) (l : List ℕ) : ℕ :=
  (l.filter (fun j => !(i == j) && !dOKB dist maxd coords i j)).length

/-- Total over the outer indices below `k`. -/
def dokCountUpTo (dist : ℚ × ℚ → ℚ × ℚ → ℚ) (maxd r : ℚ) (coords : List (ℚ × ℚ))
    (k : ℕ) : ℕ :=
  ((List.range k).map (fun i => dokCountOn dist maxd coords i (ballIndices coords r i))).sum

/-- Total over the outer indices below `k`. -/
def tooFarCountUpTo (dist : ℚ × ℚ → ℚ × ℚ → ℚ) (maxd r : ℚ) (coords : List (ℚ × ℚ))
    (k : ℕ) : ℕ :=
  ((List.range k).map (fun i => tooFarCountOn dist maxd coords i (ballIndices coords r i))).sum

/-- The insertion visits performed after the outer loop has completed the
indices below `k` and, within outer index `k`, the inner indices of
`done`. -/
def WIn (dist : ℚ × ℚ → ℚ × ℚ → ℚ) (maxd r : ℚ)
    (ids : List String) (coords : List (ℚ × ℚ)) (H0 : DiGraph)
    (k : ℕ) (done : List ℕ) (i j : ℕ) : Prop :=
  addAtB dist maxd r ids coords H0 i j = true ∧ (i < k ∨ (i = k ∧ j ∈ done))

/-- All insertion visits of the completed run. -/
def WAll (dist : ℚ × ℚ → ℚ × ℚ → ℚ) (maxd r : ℚ)
    (ids : List String) (coords : List (ℚ × ℚ)) (H0 : DiGraph) (i j : ℕ) : Prop :=
  addAtB dist maxd r ids coords H0 i j = true ∧ i < ids.length

/-- The ordered string pair `(x, y)` is a direction of some inserted
walking pair of the completed run. -/
def AddedDir (dist : ℚ × ℚ → ℚ × ℚ → ℚ) (maxd r : ℚ)
    (ids : List String) (coords : List (ℚ × ℚ)) (H0 : DiGraph) (x y : String) : Prop :=
  DirMatch ids (WAll dist maxd r ids coords H0) x y

/-- The final loop state of `add_connections` (the same fold, exposed so
that theorems can speak about the final `pairs_added` set). -/
def runFinalState (dist : ℚ × ℚ → ℚ × ℚ → ℚ) (cosdeg : ℚ → ℚ) (maxd γ : ℚ)
    (g : DiGraph) (ids : List String) (coords : List (ℚ × ℚ)) : RunState :=
  (List.range ids.length).foldl
    (outerStep dist maxd γ (searchRadiusDeg cosdeg maxd coords) ids coords)
    ⟨g, 0, 0, 0, 0, ∅⟩

/-- The identifier and coordinate lists the PT connector extracts. -/
def ptIds (g : DiGraph) : List String := (extract_pt_nodes g).map (fun nd => nd.1)

/-- The coordinate rows the PT connector extracts. -/
def ptCoords (g : DiGraph) : List (ℚ × ℚ) := (extract_pt_nodes g).map nodeCoord

/-! ## Concrete inputs for witnesses and counterexamples -/

/-- Two stops 111.32 m apart (under `distTaxicab`) with a pre-existing
one-directional scheduled edge `A → B` carrying an extra attribute. -/
def Gtrain : DiGraph :=
  ⟨[("A", [("lat", .q 0), ("lon", .q 0)]), ("B", [("lat", .q 0), ("lon", .q (1/1000))])],
   [("A", "B", [("mode", .s "train"), ("route_type", .q 2)])]⟩

/-- A graph with no coordinate-bearing nodes but a pre-existing
`walk`/`pt_transfer` edge. -/
def GnoCoords : DiGraph :=
  ⟨[("A", []), ("B", [])],
   [("A", "B", [("mode", .s "walk"), ("edge_type", .s "pt_transfer")])]⟩

/-- An empty PT graph (for merge scenarios). -/
def GptEmpty : DiGraph := ⟨[], []⟩

/-- A car graph that already contains a directed edge between the road
node and the station that a connection record also links. -/
def GcarParallel : DiGraph :=
  ⟨[("road_1", [("lat", .q 1), ("lon", .q 1)]), ("S1", [("lat", .q 1), ("lon", .q 1)])],
   [("road_1", "S1", [("mode", .s "car"), ("distance", .q 5)])]⟩

/-- The connection record matching `GcarParallel`. -/
def connParallel : ConnRecord :=
  ⟨"S1", "Station One", 1, 1, "road_1", 1, 1, 50, 50 / (7/5)⟩

/-- The spec's §8 scenario for the Car-to-PT connector: road nodes
R1 at (0, 0) and R2 at (0, 0.01). -/
def GcarScenario : DiGraph :=
  ⟨[("R1", [("lat", .q 0), ("lon", .q 0)]), ("R2", [("lat", .q 0), ("lon", .q (1/100))])],
   []⟩

/-- The spec's §8 scenario station S1 at (0, 0.0005). -/
def stationScenario : Station := ⟨"S1", "S1", 0, 1/2000⟩

/-- A node carrying the perfectly valid coordinates (0, 10). -/
def GzeroLat : DiGraph := ⟨[("N1", [("lat", .q 0), ("lon", .q 10)])], []⟩

/-- Modelled from the spec (refinement comparison for the spatial-index
claim): "nodes missing valid lat/lon are excluded from indexing ... the
index is built over the remaining nodes" — an index that keeps exactly the
nodes whose `lat`/`lon` keys are present. -/
def spec_spatial_index (g : DiGraph) : List (String × ℚ × ℚ) :=
  g.nodes.filterMap (fun nd =>
    match attrGet nd.2 "lat", attrGet nd.2 "lon" with
    | some lv, some lnv => some (nd.1, lv.toQ, lnv.toQ)
    | _, _ => none)

/-- A small PT graph for merge witnesses: one isolated pair of stops. -/
def GptPair : DiGraph :=
  ⟨[("X", [("lat", .q 0), ("lon", .q 0)]), ("Y", [("lat", .q 0), ("lon", .q (1/1000))])],
   []⟩

/-- A car graph disjoint from `GptPair`. -/
def GcarSolo : DiGraph :=
  ⟨[("road_9", [("lat", .q 2), ("lon", .q 2)])], []⟩

/-- A connection record from `road_9` to stop `X`. -/
def connSolo : ConnRecord := ⟨"X", "Stop X", 0, 0, "road_9", 2, 2, 42, 30⟩

/-- Two stops 111.32 m apart (under `distTaxicab`) with pre-existing
scheduled edges in BOTH directions. -/
def GtrainBoth : DiGraph :=
  ⟨[("A", [("lat", .q 0), ("lon", .q 0)]), ("B", [("lat", .q 0), ("lon", .q (1/1000))])],
   [("A", "B", [("mode", .s "train"), ("route_type", .q 2)]),
    ("B", "A", [("mode", .s "train"), ("route_type", .q 2)])]⟩

/-- A train station colocated with the road node `road_1` of `GcarParallel`. -/
def stationNear : Station := ⟨"S1", "Station One", 1, 1⟩

/-! # Lemmas -/

/-! ## Attribute dictionaries -/

theorem attrGet_nil (k : String) : attrGet [] k = none := rfl

theorem attrGet_cons (kv : String × AVal) (rest : Attrs) (k : String) :
    attrGet (kv :: rest) k = if kv.1 = k then some kv.2 else attrGet rest k := by
  by_cases h : kv.1 = k
  · simp [attrGet, List.find?_cons_of_pos, h]
  · simp [attrGet, List.find?_cons_of_neg, h]

theorem attrGet_attrSet_self (a : Attrs) (k : String) (v : AVal) :
    attrGet (attrSet a k v) k = some v := by
  induction a with
  | nil => simp [attrSet, attrGet_cons, attrGet_nil]
  | cons kv rest ih =>
      by_cases h : kv.1 = k
      · simp [attrSet, h, attrGet_cons]
      · simp [attrSet, h, attrGet_cons, ih]

theorem attrGet_attrSet_ne (a : Attrs) (k : String) (v : AVal) (k2 : String)
    (h : k2 ≠ k) : attrGet (attrSet a k v) k2 = attrGet a k2 := by
  induction a with
  | nil => simp [attrSet, attrGet_cons, attrGet_nil, Ne.symm h]
  | cons kv rest ih =>
      by_cases hk : kv.1 = k
      · subst hk
        simp [attrSet, attrGet_cons, Ne.symm h]
      · simp [attrSet, hk, attrGet_cons, ih]

theorem attrUpdate_nil (a : Attrs) : attrUpdate a [] = a := rfl

theorem attrUpdate_cons (a : Attrs) (kv : String × AVal) (rest : Attrs) :
    attrUpdate a (kv :: rest) = attrUpdate (attrSet a kv.1 kv.2) rest := rfl

/-- The observable keys of an attribute dictionary overwritten by
`_add_walking_edge`'s update. -/
theorem attrGet_walkUpdate (a : Attrs) (γ d : ℚ) :
    attrGet (attrUpdate a (walkEdgeAttrs γ d)) "mode" = some (.s "walk") ∧
    attrGet (attrUpdate a (walkEdgeAttrs γ d)) "edge_type" = some (.s "pt_transfer") ∧
    attrGet (attrUpdate a (walkEdgeAttrs γ d)) "distance" = some (.q d) ∧
    attrGet (attrUpdate a (walkEdgeAttrs γ d)) "time" = some (.q (d / γ)) ∧
    attrGet (attrUpdate a (walkEdgeAttrs γ d)) "emissions" = some (.q 0) := by
  refine ⟨?_, ?_, ?_, ?_, ?_⟩ <;>
  · simp only [walkEdgeAttrs, attrUpdate_cons, attrUpdate_nil]
    repeat
      first
      | rw [attrGet_attrSet_self]
      | rw [attrGet_attrSet_ne _ _ _ _ (by decide)]

/-- Same for the keys written by the car-to-PT connection edge update. -/
theorem attrGet_connUpdate (a : Attrs) (c : ConnRecord) :
    attrGet (attrUpdate a (connEdgeAttrs c)) "mode" = some (.s "walk") ∧
    attrGet (attrUpdate a (connEdgeAttrs c)) "edge_type" = some (.s "car_to_pt_transfer") ∧
    attrGet (attrUpdate a (connEdgeAttrs c)) "distance" = some (.q c.distance) ∧
    attrGet (attrUpdate a (connEdgeAttrs c)) "time" = some (.q c.walk_time) ∧
    attrGet (attrUpdate a (connEdgeAttrs c)) "emissions" = some (.q 0) := by
  refine ⟨?_, ?_, ?_, ?_, ?_⟩ <;>
  · simp only [connEdgeAttrs, attrUpdate_cons, attrUpdate_nil]
    repeat
      first
      | rw [attrGet_attrSet_self]
      | rw [attrGet_attrSet_ne _ _ _ _ (by decide)]

theorem isWalkPt_walkUpdate (a : Attrs) (γ d : ℚ) :
    isWalkPt (attrUpdate a (walkEdgeAttrs γ d)) = true := by
  have h := attrGet_walkUpdate a γ d
  simp [isWalkPt, h.1, h.2.1]

theorem attrGet_walkEdgeAttrs (γ d : ℚ) :
    attrGet (walkEdgeAttrs γ d) "mode" = some (.s "walk") ∧
    attrGet (walkEdgeAttrs γ d) "edge_type" = some (.s "pt_transfer") ∧
    attrGet (walkEdgeAttrs γ d) "distance" = some (.q d) ∧
    attrGet (walkEdgeAttrs γ d) "time" = some (.q (d / γ)) ∧
    attrGet (walkEdgeAttrs γ d) "emissions" = some (.q 0) := by
  refine ⟨?_, ?_, ?_, ?_, ?_⟩ <;> simp [walkEdgeAttrs, attrGet, List.find?]

theorem attrGet_connEdgeAttrs (c : ConnRecord) :
    attrGet (connEdgeAttrs c) "mode" = some (.s "walk") ∧
    attrGet (connEdgeAttrs c) "edge_type" = some (.s "car_to_pt_transfer") ∧
    attrGet (connEdgeAttrs c) "distance" = some (.q c.distance) ∧
    attrGet (connEdgeAttrs c) "time" = some (.q c.walk_time) ∧
    attrGet (connEdgeAttrs c) "emissions" = some (.q 0) := by
  refine ⟨?_, ?_, ?_, ?_, ?_⟩ <;> simp [connEdgeAttrs, attrGet, List.find?]

/-! ## Graph operations -/

theorem edges_ensureNode (g : DiGraph) (u : String) :
    (ensureNode g u).edges = g.edges := by
  unfold ensureNode; split <;> rfl

theorem ensureNode_of_has (g : DiGraph) (u : String) (h : hasNode g u = true) :
    ensureNode g u = g := by
  unfold ensureNode; simp [h]

theorem edges_addEdge (g : DiGraph) (u v : String) (a : Attrs) :
    (addEdge g u v a).edges = edgeWrite g.edges u v a := by
  unfold addEdge
  simp [edges_ensureNode]

theorem addEdge_of_hasNodes (g : DiGraph) (u v : String) (a : Attrs)
    (hu : hasNode g u = true) (hv : hasNode g v = true) :
    addEdge g u v a = { g with edges := edgeWrite g.edges u v a } := by
  unfold addEdge
  rw [ensureNode_of_has g u hu, ensureNode_of_has g v hv]

theorem nodes_addEdge_of_has (g : DiGraph) (u v : String) (a : Attrs)
    (hu : hasNode g u = true) (hv : hasNode g v = true) :
    (addEdge g u v a).nodes = g.nodes := by
  rw [addEdge_of_hasNodes g u v a hu hv]

theorem any_pair_edgeWrite (es : List (String × String × Attrs)) (u v x y : String)
    (a : Attrs) :
    (edgeWrite es u v a).any (fun e => e.1 == x && e.2.1 == y) =
      (es.any (fun e => e.1 == x && e.2.1 == y) || (u == x && v == y)) := by
  induction es with
  | nil => simp [edgeWrite]
  | cons e rest ih =>
      by_cases h : e.1 = u ∧ e.2.1 = v
      · obtain ⟨h1, h2⟩ := h
        simp only [edgeWrite, h1, h2, beq_self_eq_true, Bool.and_self, if_true,
          List.any_cons, ih]
        cases hb : (u == x && v == y) <;> simp [hb, h1, h2]
      · have hb : (e.1 == u && e.2.1 == v) = false := by
          rcases Decidable.not_and_iff_or_not.mp h with h1 | h1 <;> simp [h1]
        simp [edgeWrite, hb, List.any_cons, ih, Bool.or_assoc]

theorem hasEdge_addEdge (g : DiGraph) (u v : String) (a : Attrs) (x y : String) :
    hasEdge (addEdge g u v a) x y = (hasEdge g x y || (u == x && v == y)) := by
  simp [hasEdge, edges_addEdge, any_pair_edgeWrite]

theorem hasEdge_addEdge_iff (g : DiGraph) (u v : String) (a : Attrs) (x y : String) :
    hasEdge (addEdge g u v a) x y = true ↔
      (hasEdge g x y = true ∨ (u = x ∧ v = y)) := by
  simp [hasEdge_addEdge]

theorem find_edgeWrite_self (es : List (String × String × Attrs)) (u v : String)
    (a : Attrs) :
    ((edgeWrite es u v a).find? (fun e => e.1 == u && e.2.1 == v)).map (fun e => e.2.2) =
      some (match (es.find? (fun e => e.1 == u && e.2.1 == v)).map (fun e => e.2.2) with
            | some old => attrUpdate old a
            | none => a) := by
  induction es with
  | nil => simp [edgeWrite, List.find?]
  | cons e rest ih =>
      by_cases h : e.1 = u ∧ e.2.1 = v
      · obtain ⟨h1, h2⟩ := h
        simp [edgeWrite, h1, h2, List.find?_cons_of_pos]
      · have hb : (e.1 == u && e.2.1 == v) = false := by
          rcases Decidable.not_and_iff_or_not.mp h with h1 | h1 <;> simp [h1]
        simp only [edgeWrite, hb, if_false, List.find?]
        exact ih

theorem find_edgeWrite_ne (es : List (String × String × Attrs)) (u v : String)
    (a : Attrs) (x y : String) (h : ¬(u = x ∧ v = y)) :
    (edgeWrite es u v a).find? (fun e => e.1 == x && e.2.1 == y) =
      es.find? (fun e => e.1 == x && e.2.1 == y) := by
  have hb : (u == x && v == y) = false := by
    rcases Decidable.not_and_iff_or_not.mp h with h1 | h1 <;> simp [h1]
  induction es with
  | nil => simp only [edgeWrite, List.find?, hb]
  | cons e rest ih =>
      by_cases he : e.1 = u ∧ e.2.1 = v
      · obtain ⟨h1, h2⟩ := he
        have hbe : (e.1 == x && e.2.1 == y) = false := by rw [h1, h2]; exact hb
        simp only [edgeWrite, h1, h2, beq_self_eq_true, Bool.and_self, if_true,
          List.find?, hb, hbe]
      · have hbe : (e.1 == u && e.2.1 == v) = false := by
          rcases Decidable.not_and_iff_or_not.mp he with h1 | h1 <;> simp [h1]
        simp only [edgeWrite, hbe, if_false, List.find?]
        cases hp : (e.1 == x && e.2.1 == y) <;> simp only [hp, ih]

theorem edgeData_addEdge_self (g : DiGraph) (u v : String) (a : Attrs) :
    edgeData (addEdge g u v a) u v =
      some (match edgeData g u v with
            | some old => attrUpdate old a
            | none => a) := by
  simp only [edgeData, edges_addEdge]
  exact find_edgeWrite_self g.edges u v a

theorem edgeData_addEdge_ne (g : DiGraph) (u v : String) (a : Attrs) (x y : String)
    (h : ¬(u = x ∧ v = y)) :
    edgeData (addEdge g u v a) x y = edgeData g x y := by
  simp only [edgeData, edges_addEdge]
  rw [find_edgeWrite_ne g.edges u v a x y h]

theorem hasNode_congr (g h : DiGraph) (hn : g.nodes = h.nodes) (u : String) :
    hasNode g u = hasNode h u := by
  simp [hasNode, hn]

theorem hasEdge_iff_edgeData (g : DiGraph) (x y : String) :
    hasEdge g x y = true ↔ (edgeData g x y).isSome = true := by
  simp only [hasEdge, edgeData, Option.isSome_map']
  rw [List.find?_isSome, List.any_eq_true]

/-! ## Clearing the old walking edges -/

theorem nodes_clearWalkEdges (g : DiGraph) : (clearWalkEdges g).nodes = g.nodes := rfl

theorem find_filter_walkpt (es : List (String × String × Attrs)) (x y : String)
    (hwf : (es.map (fun e => (e.1, e.2.1))).Nodup) :
    ((es.filter (fun e => !isWalkPt e.2.2)).find?
        (fun e => e.1 == x && e.2.1 == y)).map (fun e => e.2.2) =
      (if ((es.find? (fun e => e.1 == x && e.2.1 == y)).map
            (fun e => e.2.2)).elim false isWalkPt = true then none
       else (es.find? (fun e => e.1 == x && e.2.1 == y)).map (fun e => e.2.2)) := by
  induction es with
  | nil => simp [List.find?]
  | cons e rest ih =>
      rw [List.map_cons, List.nodup_cons] at hwf
      obtain ⟨hnm, hnd⟩ := hwf
      cases hp : (e.1 == x && e.2.1 == y) with
      | true =>
          have hxy : e.1 = x ∧ e.2.1 = y := by simpa using hp
          by_cases hw : isWalkPt e.2.2 = true
          · rw [List.filter_cons_of_neg (by simp [hw])]
            have hnone : (rest.filter (fun e => !isWalkPt e.2.2)).find?
                (fun e => e.1 == x && e.2.1 == y) = none := by
              rw [List.find?_eq_none]
              intro e2 he2 hpe2
              have he2r : e2 ∈ rest := (List.mem_filter.mp he2).1
              have hpair : (e2.1, e2.2.1) = (e.1, e.2.1) := by
                have h2 : e2.1 = x ∧ e2.2.1 = y := by simpa using hpe2
                rw [h2.1, h2.2, hxy.1, hxy.2]
              exact hnm (hpair ▸ List.mem_map_of_mem (fun e => (e.1, e.2.1)) he2r)
            rw [hnone]
            simp only [List.find?, hp]
            simp [hw]
          · rw [List.filter_cons_of_pos (by simp [hw])]
            simp only [List.find?, hp]
            simp [hw]
      | false =>
          by_cases hw : isWalkPt e.2.2 = true
          · rw [List.filter_cons_of_neg (by simp [hw])]
            simp only [List.find?, hp]
            exact ih hnd
          · rw [List.filter_cons_of_pos (by simp [hw])]
            simp only [List.find?, hp]
            exact ih hnd

theorem edgeData_clearWalkEdges (g : DiGraph)
    (hwf : (g.edges.map (fun e => (e.1, e.2.1))).Nodup) (x y : String) :
    edgeData (clearWalkEdges g) x y =
      (if walkPtEdge g x y = true then none else edgeData g x y) := by
  have key := find_filter_walkpt g.edges x y hwf
  simp only [edgeData, clearWalkEdges, walkPtEdge]
  exact key

theorem hasEdge_eq_isSome (g : DiGraph) (x y : String) :
    hasEdge g x y = (edgeData g x y).isSome := by
  by_cases h : hasEdge g x y = true
  · rw [h, eq_comm]
    exact (hasEdge_iff_edgeData g x y).mp h
  · have h2 : ¬(edgeData g x y).isSome = true :=
      fun hc => h ((hasEdge_iff_edgeData g x y).mpr hc)
    rw [Bool.not_eq_true] at h h2
    rw [h, h2]

theorem hasEdge_clearWalkEdges (g : DiGraph)
    (hwf : (g.edges.map (fun e => (e.1, e.2.1))).Nodup) (x y : String) :
    hasEdge (clearWalkEdges g) x y = (hasEdge g x y && !walkPtEdge g x y) := by
  rw [hasEdge_eq_isSome, hasEdge_eq_isSome, edgeData_clearWalkEdges g hwf]
  by_cases hw : walkPtEdge g x y = true
  · simp [hw]
  · rw [if_neg hw]
    rw [Bool.not_eq_true] at hw
    simp [hw]

theorem walkPtEdge_clearWalkEdges (g : DiGraph)
    (hwf : (g.edges.map (fun e => (e.1, e.2.1))).Nodup) (x y : String) :
    walkPtEdge (clearWalkEdges g) x y = false := by
  rw [walkPtEdge, edgeData_clearWalkEdges g hwf]
  by_cases hw : walkPtEdge g x y = true
  · simp [hw]
  · rw [if_neg hw]
    rw [walkPtEdge] at hw
    cases hd : edgeData g x y with
    | none => simp
    | some a => rw [hd] at hw; simpa using hw

/-! ## Well-formedness preservation -/

theorem pairs_edgeWrite_subset (es : List (String × String × Attrs)) (u v : String)
    (a : Attrs) :
    ∀ p ∈ (edgeWrite es u v a).map (fun e => (e.1, e.2.1)),
      p ∈ es.map (fun e => (e.1, e.2.1)) ∨ p = (u, v) := by
  induction es with
  | nil => simp [edgeWrite]
  | cons e rest ih =>
      by_cases h : (e.1 == u && e.2.1 == v) = true
      · intro p hp
        rw [edgeWrite, if_pos h] at hp
        have hxy : e.1 = u ∧ e.2.1 = v := by simpa using h
        rcases List.mem_map.mp hp with ⟨e2, he2, rfl⟩
        rcases List.mem_cons.mp he2 with rfl | h2
        · right; rfl
        · left
          simp only [List.map_cons, List.mem_cons]
          right
          exact List.mem_map_of_mem _ h2
      · intro p hp
        rw [edgeWrite, if_neg h] at hp
        rcases List.mem_map.mp hp with ⟨e2, he2, rfl⟩
        rcases List.mem_cons.mp he2 with rfl | h2
        · left; simp
        · rcases ih _ (List.mem_map_of_mem _ h2) with h3 | h3
          · left
            simp only [List.map_cons, List.mem_cons]
            right
            exact h3
          · right; exact h3

theorem nodup_pairs_edgeWrite (es : List (String × String × Attrs)) (u v : String)
    (a : Attrs) (h : (es.map (fun e => (e.1, e.2.1))).Nodup) :
    ((edgeWrite es u v a).map (fun e => (e.1, e.2.1))).Nodup := by
  induction es with
  | nil => simp [edgeWrite]
  | cons e rest ih =>
      rw [List.map_cons, List.nodup_cons] at h
      obtain ⟨hnm, hnd⟩ := h
      by_cases hb : (e.1 == u && e.2.1 == v) = true
      · have hxy : e.1 = u ∧ e.2.1 = v := by simpa using hb
        rw [edgeWrite, if_pos hb, List.map_cons, List.nodup_cons]
        exact ⟨by rw [← hxy.1, ← hxy.2]; exact hnm, hnd⟩
      · have hxy : ¬(e.1 = u ∧ e.2.1 = v) := by
          intro hc; rw [hc.1, hc.2] at hb; simp at hb
        rw [edgeWrite, if_neg hb, List.map_cons, List.nodup_cons]
        refine ⟨?_, ih hnd⟩
        intro hc
        rcases pairs_edgeWrite_subset rest u v a _ hc with h3 | h3
        · exact hnm h3
        · rw [Prod.ext_iff] at h3
          exact hxy ⟨h3.1, h3.2⟩

theorem nodup_names_ensureNode (g : DiGraph) (u : String)
    (h : (g.nodes.map (fun nd => nd.1)).Nodup) :
    ((ensureNode g u).nodes.map (fun nd => nd.1)).Nodup := by
  unfold ensureNode
  by_cases hnb : hasNode g u = true
  · simp [hnb, h]
  · have hmem : ∀ nd ∈ g.nodes, nd.1 ≠ u := by
      intro nd hnd hc
      apply hnb
      rw [hasNode, List.any_eq_true]
      exact ⟨nd, hnd, by simp [hc]⟩
    rw [Bool.not_eq_true] at hnb
    simp only [hnb, Bool.false_eq_true, if_false, List.map_append, List.map_cons,
      List.map_nil]
    rw [List.nodup_append]
    refine ⟨h, List.nodup_singleton u, ?_⟩
    intro x hx hx2
    simp only [List.mem_singleton] at hx2
    subst hx2
    rcases List.mem_map.mp hx with ⟨nd, hnd, h3⟩
    exact hmem nd hnd h3

theorem GraphWF_addEdge (g : DiGraph) (u v : String) (a : Attrs) (h : GraphWF g) :
    GraphWF (addEdge g u v a) := by
  obtain ⟨hn, he⟩ := h
  constructor
  · have h2 := nodup_names_ensureNode (ensureNode g u) v (nodup_names_ensureNode g u hn)
    simpa [addEdge] using h2
  · rw [edges_addEdge]
    exact nodup_pairs_edgeWrite g.edges u v a he

theorem GraphWF_clearWalkEdges (g : DiGraph) (h : GraphWF g) :
    GraphWF (clearWalkEdges g) := by
  obtain ⟨hn, he⟩ := h
  refine ⟨hn, ?_⟩
  have hsub : List.Sublist ((clearWalkEdges g).edges.map (fun e => (e.1, e.2.1)))
      (g.edges.map (fun e => (e.1, e.2.1))) :=
    List.Sublist.map _ (List.filter_sublist g.edges)
  exact he.sublist hsub

/-! ## Sorted pairs and ball membership -/

theorem sortPair_comm (u v : String) : sortPair u v = sortPair v u := by
  unfold sortPair
  rcases lt_trichotomy u v with h | h | h
  · rw [if_pos h, if_neg (not_lt.mpr (le_of_lt h))]
  · subst h; rfl
  · rw [if_pos h, if_neg (not_lt.mpr (le_of_lt h))]

theorem sortPair_eq (u v x y : String) (h : sortPair u v = sortPair x y) :
    (u = x ∧ v = y) ∨ (u = y ∧ v = x) := by
  unfold sortPair at h
  split_ifs at h <;> rw [Prod.ext_iff] at h <;> simp only at h
  · exact Or.inl h
  · exact Or.inr ⟨h.1, h.2⟩
  · exact Or.inr ⟨h.2, h.1⟩
  · exact Or.inl ⟨h.2, h.1⟩

theorem mem_ballIndices (coords : List (ℚ × ℚ)) (r : ℚ) (i j : ℕ) :
    j ∈ ballIndices coords r i ↔
      (j < coords.length ∧ sqDeg (coordAt coords i) (coordAt coords j) ≤ r ^ 2) := by
  simp [ballIndices, List.mem_filter, List.mem_range]

theorem inBallB_iff (coords : List (ℚ × ℚ)) (r : ℚ) (i j : ℕ) :
    inBallB coords r i j = true ↔
      (j < coords.length ∧ sqDeg (coordAt coords i) (coordAt coords j) ≤ r ^ 2) := by
  simp [inBallB]

theorem mem_ballIndices_iff (coords : List (ℚ × ℚ)) (r : ℚ) (i j : ℕ) :
    j ∈ ballIndices coords r i ↔ inBallB coords r i j = true := by
  rw [mem_ballIndices, inBallB_iff]

theorem sqDeg_comm (p q : ℚ × ℚ) : sqDeg p q = sqDeg q p := by
  unfold sqDeg; ring

theorem inBallB_symm (coords : List (ℚ × ℚ)) (r : ℚ) (i j : ℕ)
    (hi : i < coords.length) (h : inBallB coords r i j = true) :
    inBallB coords r j i = true := by
  rw [inBallB_iff] at h ⊢
  exact ⟨hi, by rw [sqDeg_comm]; exact h.2⟩

theorem ballIndices_nodup (coords : List (ℚ × ℚ)) (r : ℚ) (i : ℕ) :
    (ballIndices coords r i).Nodup :=
  List.Nodup.filter _ (List.nodup_range _)

theorem idAt_inj (ids : List String) (h : ids.Nodup) (i j : ℕ)
    (hi : i < ids.length) (hj : j < ids.length) (he : idAt ids i = idAt ids j) :
    i = j := by
  unfold idAt at he
  rw [List.getD_eq_getElem _ _ hi, List.getD_eq_getElem _ _ hj] at he
  exact h.getElem_inj_iff.mp he

/-! ## Characterization of `add_connections` -/

theorem DirMatch_congr (ids : List String) (W1 W2 : ℕ → ℕ → Prop)
    (hw : ∀ i j, W1 i j ↔ W2 i j) (x y : String) :
    DirMatch ids W1 x y ↔ DirMatch ids W2 x y := by
  unfold DirMatch
  constructor
  · rintro ⟨i, j, hi, hj, hwij, hm⟩
    exact ⟨i, j, hi, hj, (hw i j).mp hwij, hm⟩
  · rintro ⟨i, j, hi, hj, hwij, hm⟩
    exact ⟨i, j, hi, hj, (hw i j).mpr hwij, hm⟩

theorem PTInv_congr (dist : ℚ × ℚ → ℚ × ℚ → ℚ) (γ : ℚ)
    (ids : List String) (coords : List (ℚ × ℚ)) (H0 : DiGraph)
    (W1 W2 : ℕ → ℕ → Prop) (hw : ∀ i j, W1 i j ↔ W2 i j) (st : RunState)
    (h : PTInv dist γ ids coords H0 W1 st) : PTInv dist γ ids coords H0 W2 st where
  nodesEq := h.nodesEq
  hasEq := fun x y =>
    Iff.trans (h.hasEq x y) (or_congr Iff.rfl (DirMatch_congr ids W1 W2 hw x y))
  dataAdded := fun i j hW => h.dataAdded i j ((hw i j).mpr hW)
  dataOld := fun x y hnd => h.dataOld x y (fun hd => hnd ((DirMatch_congr ids W1 W2 hw x y).mp hd))
  pairsMem := fun p => by
    rw [h.pairsMem p]
    constructor
    · rintro ⟨i, j, hi, hj, hwij, hp⟩
      exact ⟨i, j, hi, hj, (hw i j).mp hwij, hp⟩
    · rintro ⟨i, j, hi, hj, hwij, hp⟩
      exact ⟨i, j, hi, hj, (hw i j).mpr hwij, hp⟩
  edgesCard := h.edgesCard

theorem addAtB_self_false (dist : ℚ × ℚ → ℚ × ℚ → ℚ) (maxd r : ℚ)
    (ids : List String) (coords : List (ℚ × ℚ)) (H0 : DiGraph) (i : ℕ) :
    addAtB dist maxd r ids coords H0 i i = false := by
  unfold addAtB
  simp

theorem addAtB_ball (dist : ℚ × ℚ → ℚ × ℚ → ℚ) (maxd r : ℚ)
    (ids : List String) (coords : List (ℚ × ℚ)) (H0 : DiGraph) (i j : ℕ)
    (h : addAtB dist maxd r ids coords H0 i j = true) :
    inBallB coords r i j = true ∧ dOKB dist maxd coords i j = true := by
  unfold addAtB addFirstB at h
  rcases lt_trichotomy i j with hij | hij | hij
  · rw [if_pos hij] at h
    simp only [Bool.and_eq_true] at h
    exact ⟨h.1.1, h.1.2⟩
  · subst hij
    simp at h
  · rw [if_neg (by omega), if_pos hij] at h
    simp only [Bool.and_eq_true] at h
    exact ⟨h.1.1.1, h.1.1.2⟩

theorem WalkValues_of_edgeData_eq (g g2 : DiGraph) (x y : String) (γ d : ℚ)
    (he : edgeData g2 x y = edgeData g x y) (h : WalkValues g x y γ d) :
    WalkValues g2 x y γ d := by
  unfold WalkValues edgeGet at h ⊢
  rw [he]
  exact h

theorem walkPtEdge_of_WalkValues (g : DiGraph) (x y : String) (γ d : ℚ)
    (h : WalkValues g x y γ d) : walkPtEdge g x y = true := by
  obtain ⟨h1, h2, _, _, _⟩ := h
  unfold edgeGet at h1 h2
  unfold walkPtEdge
  cases hd : edgeData g x y with
  | none => rw [hd] at h1; exact absurd h1 (by simp)
  | some a =>
      rw [hd] at h1 h2
      simp only [Option.some_bind] at h1 h2
      simp [isWalkPt, h1, h2]

theorem addAtB_lt (dist : ℚ × ℚ → ℚ × ℚ → ℚ) (maxd r : ℚ)
    (ids : List String) (coords : List (ℚ × ℚ)) (H0 : DiGraph) (i j : ℕ)
    (h : addAtB dist maxd r ids coords H0 i j = true) : j < coords.length := by
  have hb := (addAtB_ball dist maxd r ids coords H0 i j h).1
  exact ((inBallB_iff coords r i j).mp hb).1

theorem nodes_double_add (g : DiGraph) (u v : String) (γ d : ℚ)
    (hu : hasNode g u = true) (hv : hasNode g v = true) :
    (add_walking_edge γ (add_walking_edge γ g u v d) v u d).nodes = g.nodes := by
  unfold add_walking_edge
  have h1 : (addEdge g u v (walkEdgeAttrs γ d)).nodes = g.nodes :=
    nodes_addEdge_of_has g u v _ hu hv
  have hu2 : hasNode (addEdge g u v (walkEdgeAttrs γ d)) v = true := by
    rw [hasNode_congr _ g h1]; exact hv
  have hv2 : hasNode (addEdge g u v (walkEdgeAttrs γ d)) u = true := by
    rw [hasNode_congr _ g h1]; exact hu
  rw [nodes_addEdge_of_has _ v u _ hu2 hv2, h1]

theorem hasEdge_double_add (g : DiGraph) (u v : String) (γ d : ℚ) (x y : String) :
    hasEdge (add_walking_edge γ (add_walking_edge γ g u v d) v u d) x y = true ↔
      (hasEdge g x y = true ∨ (u = x ∧ v = y) ∨ (v = x ∧ u = y)) := by
  unfold add_walking_edge
  rw [hasEdge_addEdge_iff, hasEdge_addEdge_iff]
  tauto

theorem edgeData_double_add_ne (g : DiGraph) (u v : String) (γ d : ℚ) (x y : String)
    (h1 : ¬(u = x ∧ v = y)) (h2 : ¬(v = x ∧ u = y)) :
    edgeData (add_walking_edge γ (add_walking_edge γ g u v d) v u d) x y =
      edgeData g x y := by
  unfold add_walking_edge
  rw [edgeData_addEdge_ne _ _ _ _ _ _ h2, edgeData_addEdge_ne _ _ _ _ _ _ h1]

theorem walkValues_double_add (g : DiGraph) (u v : String) (γ d : ℚ) (huv : u ≠ v) :
    WalkValues (add_walking_edge γ (add_walking_edge γ g u v d) v u d) u v γ d ∧
    WalkValues (add_walking_edge γ (add_walking_edge γ g u v d) v u d) v u γ d := by
  constructor
  · have hne : ¬(v = u ∧ u = v) := fun hc => huv hc.1.symm
    have hd2 : edgeData (add_walking_edge γ (add_walking_edge γ g u v d) v u d) u v =
        edgeData (add_walking_edge γ g u v d) u v := by
      unfold add_walking_edge
      exact edgeData_addEdge_ne _ _ _ _ _ _ hne
    unfold WalkValues edgeGet
    rw [hd2]
    unfold add_walking_edge
    rw [edgeData_addEdge_self]
    cases hold : edgeData g u v with
    | none =>
        simp only [Option.some_bind]
        have h := attrGet_walkEdgeAttrs γ d
        exact ⟨h.1, h.2.1, h.2.2.1, h.2.2.2.1, h.2.2.2.2⟩
    | some old =>
        simp only [Option.some_bind]
        have h := attrGet_walkUpdate old γ d
        exact ⟨h.1, h.2.1, h.2.2.1, h.2.2.2.1, h.2.2.2.2⟩
  · have hne : ¬(u = v ∧ v = u) := fun hc => huv hc.1
    have hd1 : edgeData (add_walking_edge γ g u v d) v u = edgeData g v u := by
      unfold add_walking_edge
      exact edgeData_addEdge_ne _ _ _ _ _ _ hne
    unfold WalkValues edgeGet
    unfold add_walking_edge
    rw [edgeData_addEdge_self]
    rw [show edgeData (addEdge g u v (walkEdgeAttrs γ d)) v u = edgeData g v u from hd1]
    cases hold : edgeData g v u with
    | none =>
        simp only [Option.some_bind]
        have h := attrGet_walkEdgeAttrs γ d
        exact ⟨h.1, h.2.1, h.2.2.1, h.2.2.2.1, h.2.2.2.2⟩
    | some old =>
        simp only [Option.some_bind]
        have h := attrGet_walkUpdate old γ d
        exact ⟨h.1, h.2.1, h.2.2.1, h.2.2.2.1, h.2.2.2.2⟩

theorem addFirstB_of_lt (dist : ℚ × ℚ → ℚ × ℚ → ℚ) (maxd r : ℚ)
    (ids : List String) (coords : List (ℚ × ℚ)) (H0 : DiGraph) (i j : ℕ)
    (h : i < j) :
    addAtB dist maxd r ids coords H0 i j = addFirstB dist maxd r ids coords H0 i j := by
  unfold addAtB
  rw [if_pos h]

theorem PTInv_stats_irrel (dist : ℚ × ℚ → ℚ × ℚ → ℚ) (γ : ℚ)
    (ids : List String) (coords : List (ℚ × ℚ)) (H0 : DiGraph)
    (W : ℕ → ℕ → Prop) (st st2 : RunState)
    (hg : st2.g = st.g) (hp : st2.pairs = st.pairs) (he : st2.edges_added = st.edges_added)
    (h : PTInv dist γ ids coords H0 W st) : PTInv dist γ ids coords H0 W st2 where
  nodesEq := by rw [hg]; exact h.nodesEq
  hasEq := by rw [hg]; exact h.hasEq
  dataAdded := by rw [hg]; exact h.dataAdded
  dataOld := by rw [hg]; exact h.dataOld
  pairsMem := by rw [hp]; exact h.pairsMem
  edgesCard := by rw [he, hp]; exact h.edgesCard

theorem visit_char
    (dist : ℚ × ℚ → ℚ × ℚ → ℚ) (maxd γ r : ℚ)
    (ids : List String) (coords : List (ℚ × ℚ)) (H0 : DiGraph)
    (HYP : PTHyp ids coords H0)
    (k : ℕ) (hk : k < ids.length) (done : List ℕ) (j : ℕ)
    (hjball : j ∈ ballIndices coords r k) (hjdone : j ∉ done)
    (st : RunState)
    (hinv : PTInv dist γ ids coords H0 (WIn dist maxd r ids coords H0 k done) st) :
    PTInv dist γ ids coords H0 (WIn dist maxd r ids coords H0 k (done ++ [j]))
        (visitStep dist maxd γ ids coords k st j) ∧
      ((visitStep dist maxd γ ids coords k st j).skipped_existing +
          (visitStep dist maxd γ ids coords k st j).pairs.card =
        st.skipped_existing + st.pairs.card +
          (if k ≠ j ∧ dOKB dist maxd coords k j = true then 1 else 0)) ∧
      ((visitStep dist maxd γ ids coords k st j).skipped_too_far =
        st.skipped_too_far +
          (if k ≠ j ∧ dOKB dist maxd coords k j = false then 1 else 0)) ∧
      ((visitStep dist maxd γ ids coords k st j).nodes_checked = st.nodes_checked) := by
  have hlen := HYP.len
  have hjn : j < ids.length := by
    have h2 := ((mem_ballIndices coords r k j).mp hjball).1
    omega
  by_cases hkj : k = j
  · subst hkj
    have hstep : visitStep dist maxd γ ids coords k st k = st := by
      unfold visitStep; simp
    rw [hstep]
    refine ⟨?_, by simp, by simp, rfl⟩
    refine PTInv_congr dist γ ids coords H0 _ _ ?_ st hinv
    intro i j2
    unfold WIn
    constructor
    · rintro ⟨ha, hocc⟩
      refine ⟨ha, ?_⟩
      rcases hocc with h | ⟨heq, h⟩
      · exact Or.inl h
      · exact Or.inr ⟨heq, List.mem_append_left _ h⟩
    · rintro ⟨ha, hocc⟩
      refine ⟨ha, ?_⟩
      rcases hocc with h | ⟨heq, h⟩
      · exact Or.inl h
      · rcases List.mem_append.mp h with h2 | h2
        · exact Or.inr ⟨heq, h2⟩
        · exfalso
          have h3 : j2 = k := by simpa using h2
          subst h3
          subst heq
          rw [addAtB_self_false] at ha
          exact Bool.false_ne_true ha
  · have hne : (k == j) = false := by simp [hkj]
    have huv : idAt ids k ≠ idAt ids j :=
      fun hc => hkj (idAt_inj ids HYP.nodup k j hk hjn hc)
    have hballB : inBallB coords r k j = true := (mem_ballIndices_iff coords r k j).mp hjball
    have hDM : DirMatch ids (WIn dist maxd r ids coords H0 k done)
        (idAt ids k) (idAt ids j) ↔
        (addAtB dist maxd r ids coords H0 j k = true ∧ j < k) := by
      constructor
      · rintro ⟨i2, j2, hi2, hj2, ⟨ha2, hocc⟩, hm⟩
        rcases hm with ⟨h1, h2⟩ | ⟨h1, h2⟩
        · have hik : k = i2 := idAt_inj ids HYP.nodup k i2 hk hi2 h1
          have hjk2 : j = j2 := idAt_inj ids HYP.nodup j j2 hjn hj2 h2
          subst hik; subst hjk2
          rcases hocc with h3 | ⟨_, h3⟩
          · omega
          · exact absurd h3 hjdone
        · have hik : k = j2 := idAt_inj ids HYP.nodup k j2 hk hj2 h1
          have hjk2 : j = i2 := idAt_inj ids HYP.nodup j i2 hjn hi2 h2
          subst hik; subst hjk2
          rcases hocc with h3 | ⟨h3, _⟩
          · exact ⟨ha2, h3⟩
          · exact absurd h3.symm hkj
      · rintro ⟨ha2, hjk2⟩
        exact ⟨j, k, hjn, hk, ⟨ha2, Or.inl hjk2⟩, Or.inr ⟨rfl, rfl⟩⟩
    by_cases hfar : maxd < dist (coordAt coords k) (coordAt coords j)
    · -- too-far branch
      have hdok : dOKB dist maxd coords k j = false := by
        unfold dOKB; simp [hfar]
      have hstep : visitStep dist maxd γ ids coords k st j =
          { st with skipped_too_far := st.skipped_too_far + 1 } := by
        unfold visitStep
        simp only [hne, Bool.false_eq_true, if_false, if_pos hfar]
      rw [hstep]
      have haddf : addAtB dist maxd r ids coords H0 k j = false := by
        cases hh : addAtB dist maxd r ids coords H0 k j
        · rfl
        · have h2 := (addAtB_ball dist maxd r ids coords H0 k j hh).2
          rw [h2] at hdok
          exact absurd hdok (by decide)
      refine ⟨?_, by simp [hdok], by simp [hkj, hdok], rfl⟩
      refine PTInv_stats_irrel dist γ ids coords H0 _ st _ rfl rfl rfl ?_
      refine PTInv_congr dist γ ids coords H0 _ _ ?_ st hinv
      intro i j2
      unfold WIn
      constructor
      · rintro ⟨ha, hocc⟩
        refine ⟨ha, ?_⟩
        rcases hocc with h | ⟨heq, h⟩
        · exact Or.inl h
        · exact Or.inr ⟨heq, List.mem_append_left _ h⟩
      · rintro ⟨ha, hocc⟩
        refine ⟨ha, ?_⟩
        rcases hocc with h | ⟨heq, h⟩
        · exact Or.inl h
        · rcases List.mem_append.mp h with h2 | h2
          · exact Or.inr ⟨heq, h2⟩
          · exfalso
            have h3 : j2 = j := by simpa using h2
            subst h3; subst heq
            rw [haddf] at ha
            exact Bool.false_ne_true ha
    · -- within budget
      have hdok : dOKB dist maxd coords k j = true := by
        unfold dOKB; simp [hfar]
      by_cases hcur : hasEdge st.g (idAt ids k) (idAt ids j) = true
      · -- skip branch
        have hstep : visitStep dist maxd γ ids coords k st j =
            { st with skipped_existing := st.skipped_existing + 1 } := by
          unfold visitStep
          simp only [hne, Bool.false_eq_true, if_false, if_neg hfar, if_pos hcur]
        rw [hstep]
        have hH := (hinv.hasEq (idAt ids k) (idAt ids j)).mp hcur
        have haddf : addAtB dist maxd r ids coords H0 k j = false := by
          cases hh : addAtB dist maxd r ids coords H0 k j
          · rfl
          · exfalso
            rcases hH with hH0 | hDMt
            · unfold addAtB addFirstB at hh
              rcases lt_trichotomy k j with h1 | h1 | h1
              · rw [if_pos h1] at hh
                simp only [Bool.and_eq_true, Bool.not_eq_true'] at hh
                rw [hh.2] at hH0
                exact Bool.false_ne_true hH0
              · exact hkj h1
              · rw [if_neg (by omega), if_pos h1] at hh
                simp only [Bool.and_eq_true, Bool.not_eq_true'] at hh
                rw [hh.1.2] at hH0
                exact Bool.false_ne_true hH0
            · obtain ⟨haj, hjk2⟩ := hDM.mp hDMt
              unfold addAtB at hh
              rcases lt_trichotomy k j with h1 | h1 | h1
              · omega
              · exact hkj h1
              · rw [if_neg (by omega), if_pos h1] at hh
                simp only [Bool.and_eq_true, Bool.not_eq_true'] at hh
                rw [addFirstB_of_lt dist maxd r ids coords H0 j k hjk2] at haj
                rw [haj] at hh
                simpa using hh.2
        refine ⟨?_, ?_, by simp [hdok], rfl⟩
        · refine PTInv_stats_irrel dist γ ids coords H0 _ st _ rfl rfl rfl ?_
          refine PTInv_congr dist γ ids coords H0 _ _ ?_ st hinv
          intro i j2
          unfold WIn
          constructor
          · rintro ⟨ha, hocc⟩
            refine ⟨ha, ?_⟩
            rcases hocc with h | ⟨heq, h⟩
            · exact Or.inl h
            · exact Or.inr ⟨heq, List.mem_append_left _ h⟩
          · rintro ⟨ha, hocc⟩
            refine ⟨ha, ?_⟩
            rcases hocc with h | ⟨heq, h⟩
            · exact Or.inl h
            · rcases List.mem_append.mp h with h2 | h2
              · exact Or.inr ⟨heq, h2⟩
              · exfalso
                have h3 : j2 = j := by simpa using h2
                subst h3; subst heq
                rw [haddf] at ha
                exact Bool.false_ne_true ha
        · simp only [if_pos (And.intro hkj hdok)]
          omega
      · -- add branch
        have hstep : visitStep dist maxd γ ids coords k st j =
            { st with
              g := add_walking_edge γ
                (add_walking_edge γ st.g (idAt ids k) (idAt ids j)
                  (dist (coordAt coords k) (coordAt coords j)))
                (idAt ids j) (idAt ids k)
                (dist (coordAt coords k) (coordAt coords j)),
              edges_added := st.edges_added + 2,
              pairs := insert (sortPair (idAt ids k) (idAt ids j)) st.pairs } := by
          unfold visitStep
          simp only [hne, Bool.false_eq_true, if_false, if_neg hfar, if_neg hcur]
        have hnotH := (fun hc => hcur ((hinv.hasEq (idAt ids k) (idAt ids j)).mpr hc) :
          ¬(hasEdge H0 (idAt ids k) (idAt ids j) = true ∨
            DirMatch ids (WIn dist maxd r ids coords H0 k done) (idAt ids k) (idAt ids j)))
        have hH0f : hasEdge H0 (idAt ids k) (idAt ids j) = false := by
          cases hh : hasEdge H0 (idAt ids k) (idAt ids j)
          · rfl
          · exact absurd (Or.inl hh) hnotH
        have hnDM : ¬(addAtB dist maxd r ids coords H0 j k = true ∧ j < k) :=
          fun hc => hnotH (Or.inr (hDM.mpr hc))
        have haddT : addAtB dist maxd r ids coords H0 k j = true := by
          unfold addAtB
          rcases lt_trichotomy k j with h1 | h1 | h1
          · rw [if_pos h1]
            unfold addFirstB
            rw [hballB, hdok, hH0f]
            rfl
          · exact absurd h1 hkj
          · rw [if_neg (by omega), if_pos h1]
            have hnf : addFirstB dist maxd r ids coords H0 j k = false := by
              cases hh : addFirstB dist maxd r ids coords H0 j k
              · rfl
              · exfalso
                apply hnDM
                refine ⟨?_, h1⟩
                rw [addFirstB_of_lt dist maxd r ids coords H0 j k h1]
                exact hh
            rw [hballB, hdok, hH0f, hnf]
            rfl
        -- the two presence facts for the endpoints
        have hasU : hasNode st.g (idAt ids k) = true := by
          rw [hasNode_congr st.g H0 hinv.nodesEq]
          exact HYP.inGraph k hk
        have hasV : hasNode st.g (idAt ids j) = true := by
          rw [hasNode_congr st.g H0 hinv.nodesEq]
          exact HYP.inGraph j hjn
        -- W-extension decomposition
        have hWext : ∀ i2 j2, WIn dist maxd r ids coords H0 k (done ++ [j]) i2 j2 ↔
            (WIn dist maxd r ids coords H0 k done i2 j2 ∨ (i2 = k ∧ j2 = j)) := by
          intro i2 j2
          unfold WIn
          constructor
          · rintro ⟨ha, hocc⟩
            rcases hocc with h | ⟨heq, h⟩
            · exact Or.inl ⟨ha, Or.inl h⟩
            · rcases List.mem_append.mp h with h2 | h2
              · exact Or.inl ⟨ha, Or.inr ⟨heq, h2⟩⟩
              · have h3 : j2 = j := by simpa using h2
                exact Or.inr ⟨heq, h3⟩
          · rintro (⟨ha, hocc⟩ | ⟨heq, h3⟩)
            · refine ⟨ha, ?_⟩
              rcases hocc with h | ⟨heq, h⟩
              · exact Or.inl h
              · exact Or.inr ⟨heq, List.mem_append_left _ h⟩
            · subst heq; subst h3
              exact ⟨haddT, Or.inr ⟨rfl, List.mem_append_right _ (by simp)⟩⟩
        have hDMext : ∀ x y, DirMatch ids (WIn dist maxd r ids coords H0 k (done ++ [j])) x y ↔
            (DirMatch ids (WIn dist maxd r ids coords H0 k done) x y ∨
              (x = idAt ids k ∧ y = idAt ids j) ∨ (x = idAt ids j ∧ y = idAt ids k)) := by
          intro x y
          constructor
          · rintro ⟨i2, j2, hi2, hj2, hw2, hm⟩
            rcases (hWext i2 j2).mp hw2 with hw3 | ⟨heq, h3⟩
            · exact Or.inl ⟨i2, j2, hi2, hj2, hw3, hm⟩
            · subst heq; subst h3
              rcases hm with ⟨h1, h2⟩ | ⟨h1, h2⟩
              · exact Or.inr (Or.inl ⟨h1, h2⟩)
              · exact Or.inr (Or.inr ⟨h1, h2⟩)
          · rintro (⟨i2, j2, hi2, hj2, hw2, hm⟩ | ⟨h1, h2⟩ | ⟨h1, h2⟩)
            · exact ⟨i2, j2, hi2, hj2, (hWext i2 j2).mpr (Or.inl hw2), hm⟩
            · exact ⟨k, j, hk, hjn, (hWext k j).mpr (Or.inr ⟨rfl, rfl⟩), Or.inl ⟨h1, h2⟩⟩
            · exact ⟨k, j, hk, hjn, (hWext k j).mpr (Or.inr ⟨rfl, rfl⟩), Or.inr ⟨h1, h2⟩⟩
        -- the new sorted pair is fresh
        have hfresh : sortPair (idAt ids k) (idAt ids j) ∉ st.pairs := by
          intro hmem
          rcases (hinv.pairsMem _).mp hmem with ⟨i2, j2, hi2, hj2, ⟨ha2, hocc⟩, hp2⟩
          rcases sortPair_eq _ _ _ _ hp2 with ⟨h1, h2⟩ | ⟨h1, h2⟩
          · have hik : k = i2 := idAt_inj ids HYP.nodup k i2 hk hi2 h1
            have hjk2 : j = j2 := idAt_inj ids HYP.nodup j j2 hjn hj2 h2
            subst hik; subst hjk2
            rcases hocc with h3 | ⟨_, h3⟩
            · exact absurd h3 (lt_irrefl k)
            · exact hjdone h3
          · have hik : k = j2 := idAt_inj ids HYP.nodup k j2 hk hj2 h1
            have hjk2 : j = i2 := idAt_inj ids HYP.nodup j i2 hjn hi2 h2
            subst hik; subst hjk2
            rcases hocc with h3 | ⟨h3, _⟩
            · exact hnDM ⟨ha2, h3⟩
            · exact hkj h3.symm
        rw [hstep]
        refine ⟨?_, ?_, by simp [hdok], rfl⟩
        · constructor
          · -- nodesEq
            have h4 := nodes_double_add st.g (idAt ids k) (idAt ids j) γ
              (dist (coordAt coords k) (coordAt coords j)) hasU hasV
            rw [h4]
            exact hinv.nodesEq
          · -- hasEq
            intro x y
            rw [hasEdge_double_add]
            rw [hinv.hasEq x y, hDMext x y]
            constructor
            · rintro ((h | h) | h | h)
              · exact Or.inl h
              · exact Or.inr (Or.inl h)
              · exact Or.inr (Or.inr (Or.inl ⟨h.1.symm, h.2.symm⟩))
              · exact Or.inr (Or.inr (Or.inr ⟨h.1.symm, h.2.symm⟩))
            · rintro (h | h | h | h)
              · exact Or.inl (Or.inl h)
              · exact Or.inl (Or.inr h)
              · exact Or.inr (Or.inl ⟨h.1.symm, h.2.symm⟩)
              · exact Or.inr (Or.inr ⟨h.1.symm, h.2.symm⟩)
          · -- dataAdded
            intro i2 j2 hw2
            rcases (hWext i2 j2).mp hw2 with hw3 | ⟨heq, h3⟩
            · have hprev := hinv.dataAdded i2 j2 hw3
              have hi2 : i2 < ids.length := by
                rcases hw3.2 with h | ⟨heq, _⟩
                · omega
                · omega
              have hj2 : j2 < ids.length := by
                have := addAtB_lt dist maxd r ids coords H0 i2 j2 hw3.1
                omega
              have hneq1 : ¬(idAt ids k = idAt ids i2 ∧ idAt ids j = idAt ids j2) := by
                rintro ⟨h1, h2⟩
                have hik : k = i2 := idAt_inj ids HYP.nodup k i2 hk hi2 h1
                have hjk2 : j = j2 := idAt_inj ids HYP.nodup j j2 hjn hj2 h2
                subst hik; subst hjk2
                rcases hw3.2 with h3 | ⟨_, h3⟩
                · omega
                · exact hjdone h3
              have hneq2 : ¬(idAt ids j = idAt ids i2 ∧ idAt ids k = idAt ids j2) := by
                rintro ⟨h1, h2⟩
                have hik : k = j2 := idAt_inj ids HYP.nodup k j2 hk hj2 h2
                have hjk2 : j = i2 := idAt_inj ids HYP.nodup j i2 hjn hi2 h1
                subst hik; subst hjk2
                rcases hw3.2 with h3 | ⟨h3, _⟩
                · exact hnDM ⟨hw3.1, h3⟩
                · exact hkj h3.symm
              constructor
              · refine WalkValues_of_edgeData_eq _ _ _ _ _ _ ?_ hprev.1
                exact edgeData_double_add_ne _ _ _ _ _ _ _ hneq1 (by tauto)
              · refine WalkValues_of_edgeData_eq _ _ _ _ _ _ ?_ hprev.2
                exact edgeData_double_add_ne _ _ _ _ _ _ _ (by tauto) (by tauto)
            · rw [heq, h3]
              exact walkValues_double_add st.g (idAt ids k) (idAt ids j) γ
                (dist (coordAt coords k) (coordAt coords j)) huv
          · -- dataOld
            intro x y hnd
            have hnd2 : ¬ DirMatch ids (WIn dist maxd r ids coords H0 k done) x y :=
              fun hc => hnd ((hDMext x y).mpr (Or.inl hc))
            have hx1 : ¬(idAt ids k = x ∧ idAt ids j = y) := by
              rintro ⟨h1, h2⟩
              exact hnd ((hDMext x y).mpr (Or.inr (Or.inl ⟨h1.symm, h2.symm⟩)))
            have hx2 : ¬(idAt ids j = x ∧ idAt ids k = y) := by
              rintro ⟨h1, h2⟩
              exact hnd ((hDMext x y).mpr (Or.inr (Or.inr ⟨h1.symm, h2.symm⟩)))
            rw [edgeData_double_add_ne _ _ _ _ _ _ _ hx1 hx2]
            exact hinv.dataOld x y hnd2
          · -- pairsMem
            intro p
            rw [Finset.mem_insert]
            constructor
            · rintro (rfl | hmem)
              · exact ⟨k, j, hk, hjn, (hWext k j).mpr (Or.inr ⟨rfl, rfl⟩), rfl⟩
              · rcases (hinv.pairsMem p).mp hmem with ⟨i2, j2, hi2, hj2, hw2, hp2⟩
                exact ⟨i2, j2, hi2, hj2, (hWext i2 j2).mpr (Or.inl hw2), hp2⟩
            · rintro ⟨i2, j2, hi2, hj2, hw2, hp2⟩
              rcases (hWext i2 j2).mp hw2 with hw3 | ⟨heq, h3⟩
              · exact Or.inr ((hinv.pairsMem p).mpr ⟨i2, j2, hi2, hj2, hw3, hp2⟩)
              · subst heq; subst h3
                exact Or.inl hp2
          · -- edgesCard
            have hcard := Finset.card_insert_of_not_mem hfresh
            simp only [hcard, hinv.edgesCard]
            ring
        · -- skipped + card
          have hcard := Finset.card_insert_of_not_mem hfresh
          simp only [hcard, if_pos (And.intro hkj hdok)]
          omega

theorem dokCountOn_cons (dist : ℚ × ℚ → ℚ × ℚ → ℚ) (maxd : ℚ)
    (coords : List (ℚ × ℚ)) (i j : ℕ) (l : List ℕ) :
    dokCountOn dist maxd coords i (j :: l) =
      (if i ≠ j ∧ dOKB dist maxd coords i j = true then 1 else 0) +
        dokCountOn dist maxd coords i l := by
  unfold dokCountOn
  by_cases h1 : i = j
  · rw [List.filter_cons_of_neg (by simp [h1])]
    rw [if_neg (by tauto)]
    omega
  · by_cases h2 : dOKB dist maxd coords i j = true
    · rw [List.filter_cons_of_pos (by simp [h1, h2])]
      rw [if_pos ⟨h1, h2⟩, List.length_cons]
      omega
    · rw [List.filter_cons_of_neg (by simp [h2])]
      rw [if_neg (by tauto)]
      omega

theorem tooFarCountOn_cons (dist : ℚ × ℚ → ℚ × ℚ → ℚ) (maxd : ℚ)
    (coords : List (ℚ × ℚ)) (i j : ℕ) (l : List ℕ) :
    tooFarCountOn dist maxd coords i (j :: l) =
      (if i ≠ j ∧ dOKB dist maxd coords i j = false then 1 else 0) +
        tooFarCountOn dist maxd coords i l := by
  unfold tooFarCountOn
  by_cases h1 : i = j
  · rw [List.filter_cons_of_neg (by simp [h1])]
    rw [if_neg (by tauto)]
    omega
  · by_cases h2 : dOKB dist maxd coords i j = false
    · rw [List.filter_cons_of_pos (by simp [h1, h2])]
      rw [if_pos ⟨h1, h2⟩, List.length_cons]
      omega
    · have h3 : dOKB dist maxd coords i j = true := by
        cases hh : dOKB dist maxd coords i j
        · exact absurd hh h2
        · rfl
      rw [List.filter_cons_of_neg (by simp [h3])]
      rw [if_neg (by tauto)]
      omega

theorem inner_char
    (dist : ℚ × ℚ → ℚ × ℚ → ℚ) (maxd γ r : ℚ)
    (ids : List String) (coords : List (ℚ × ℚ)) (H0 : DiGraph)
    (HYP : PTHyp ids coords H0)
    (k : ℕ) (hk : k < ids.length) :
    ∀ (rest done : List ℕ), ballIndices coords r k = done ++ rest →
      ∀ st : RunState,
        PTInv dist γ ids coords H0 (WIn dist maxd r ids coords H0 k done) st →
        PTInv dist γ ids coords H0 (WIn dist maxd r ids coords H0 k (done ++ rest))
            (rest.foldl (visitStep dist maxd γ ids coords k) st) ∧
          ((rest.foldl (visitStep dist maxd γ ids coords k) st).skipped_existing +
              (rest.foldl (visitStep dist maxd γ ids coords k) st).pairs.card =
            st.skipped_existing + st.pairs.card + dokCountOn dist maxd coords k rest) ∧
          ((rest.foldl (visitStep dist maxd γ ids coords k) st).skipped_too_far =
            st.skipped_too_far + tooFarCountOn dist maxd coords k rest) ∧
          ((rest.foldl (visitStep dist maxd γ ids coords k) st).nodes_checked =
            st.nodes_checked) := by
  intro rest
  induction rest with
  | nil =>
      intro done hsplit st hinv
      refine ⟨?_, by simp [dokCountOn], by simp [tooFarCountOn], rfl⟩
      rw [List.append_nil]
      exact hinv
  | cons j rest2 ih =>
      intro done hsplit st hinv
      have hjball : j ∈ ballIndices coords r k := by
        rw [hsplit]
        exact List.mem_append_right done (List.mem_cons_self j rest2)
      have hnodup := ballIndices_nodup coords r k
      have hjdone : j ∉ done := by
        rw [hsplit] at hnodup
        intro hj
        rcases List.nodup_append.mp hnodup with ⟨_, _, hdisj⟩
        exact hdisj hj (List.mem_cons_self j rest2)
      obtain ⟨hinv2, hc1, hc2, hc3⟩ :=
        visit_char dist maxd γ r ids coords H0 HYP k hk done j hjball hjdone st hinv
      have hsplit2 : ballIndices coords r k = (done ++ [j]) ++ rest2 := by
        rw [hsplit, List.append_assoc]
        rfl
      obtain ⟨ihinv, ih1, ih2, ih3⟩ := ih (done ++ [j]) hsplit2 _ hinv2
      have hassoc : done ++ j :: rest2 = (done ++ [j]) ++ rest2 :=
        (List.append_assoc done [j] rest2).symm
      have hfold : List.foldl (visitStep dist maxd γ ids coords k) st (j :: rest2) =
          List.foldl (visitStep dist maxd γ ids coords k)
            (visitStep dist maxd γ ids coords k st j) rest2 := rfl
      refine ⟨?_, ?_, ?_, ?_⟩
      · rw [hassoc, hfold]
        exact ihinv
      · rw [hfold, dokCountOn_cons]
        omega
      · rw [hfold, tooFarCountOn_cons]
        omega
      · rw [hfold, ih3, hc3]

theorem dokCountUpTo_succ (dist : ℚ × ℚ → ℚ × ℚ → ℚ) (maxd r : ℚ)
    (coords : List (ℚ × ℚ)) (k : ℕ) :
    dokCountUpTo dist maxd r coords (k + 1) =
      dokCountUpTo dist maxd r coords k +
        dokCountOn dist maxd coords k (ballIndices coords r k) := by
  unfold dokCountUpTo
  rw [List.range_succ, List.map_append, List.sum_append]
  simp

theorem tooFarCountUpTo_succ (dist : ℚ × ℚ → ℚ × ℚ → ℚ) (maxd r : ℚ)
    (coords : List (ℚ × ℚ)) (k : ℕ) :
    tooFarCountUpTo dist maxd r coords (k + 1) =
      tooFarCountUpTo dist maxd r coords k +
        tooFarCountOn dist maxd coords k (ballIndices coords r k) := by
  unfold tooFarCountUpTo
  rw [List.range_succ, List.map_append, List.sum_append]
  simp

theorem outer_char
    (dist : ℚ × ℚ → ℚ × ℚ → ℚ) (maxd γ r : ℚ)
    (ids : List String) (coords : List (ℚ × ℚ)) (H0 : DiGraph)
    (HYP : PTHyp ids coords H0) :
    ∀ k, k ≤ ids.length →
      PTInv dist γ ids coords H0 (WIn dist maxd r ids coords H0 k [])
          ((List.range k).foldl (outerStep dist maxd γ r ids coords) ⟨H0, 0, 0, 0, 0, ∅⟩) ∧
        (((List.range k).foldl (outerStep dist maxd γ r ids coords)
              ⟨H0, 0, 0, 0, 0, ∅⟩).skipped_existing +
            ((List.range k).foldl (outerStep dist maxd γ r ids coords)
              ⟨H0, 0, 0, 0, 0, ∅⟩).pairs.card =
          dokCountUpTo dist maxd r coords k) ∧
        (((List.range k).foldl (outerStep dist maxd γ r ids coords)
              ⟨H0, 0, 0, 0, 0, ∅⟩).skipped_too_far =
          tooFarCountUpTo dist maxd r coords k) ∧
        (((List.range k).foldl (outerStep dist maxd γ r ids coords)
              ⟨H0, 0, 0, 0, 0, ∅⟩).nodes_checked = k) := by
  intro k
  induction k with
  | zero =>
      intro _
      refine ⟨?_, by simp [dokCountUpTo], by simp [tooFarCountUpTo], rfl⟩
      constructor
      · rfl
      · intro x y
        constructor
        · exact Or.inl
        · rintro (h | ⟨i, j, _, _, ⟨_, hocc⟩, _⟩)
          · exact h
          · rcases hocc with h2 | ⟨_, h2⟩
            · omega
            · simp at h2
      · rintro i j ⟨_, hocc⟩
        rcases hocc with h2 | ⟨_, h2⟩
        · omega
        · simp at h2
      · intro x y _
        rfl
      · intro p
        constructor
        · intro hp
          exact absurd hp (Finset.not_mem_empty p)
        · rintro ⟨i, j, _, _, ⟨_, hocc⟩, _⟩
          exfalso
          rcases hocc with h2 | ⟨_, h2⟩
          · omega
          · simp at h2
      · rfl
  | succ k ihk =>
      intro hk1
      have hkn : k < ids.length := by omega
      obtain ⟨ihinv, i1, i2, i3⟩ := ihk (by omega)
      have hrange : (List.range (k+1)).foldl (outerStep dist maxd γ r ids coords)
          (⟨H0, 0, 0, 0, 0, ∅⟩ : RunState) =
          outerStep dist maxd γ r ids coords
            ((List.range k).foldl (outerStep dist maxd γ r ids coords)
              ⟨H0, 0, 0, 0, 0, ∅⟩) k := by
        rw [List.range_succ, List.foldl_append, List.foldl_cons, List.foldl_nil]
      rw [hrange, dokCountUpTo_succ, tooFarCountUpTo_succ]
      revert ihinv i1 i2 i3
      generalize (List.range k).foldl (outerStep dist maxd γ r ids coords)
        (⟨H0, 0, 0, 0, 0, ∅⟩ : RunState) = s
      intro ihinv i1 i2 i3
      have hmid : PTInv dist γ ids coords H0 (WIn dist maxd r ids coords H0 k [])
          { s with nodes_checked := s.nodes_checked + 1 } :=
        PTInv_stats_irrel dist γ ids coords H0 _ s
          { s with nodes_checked := s.nodes_checked + 1 } rfl rfl rfl ihinv
      obtain ⟨hinv2, c1, c2, c3⟩ :=
        inner_char dist maxd γ r ids coords H0 HYP k hkn
          (ballIndices coords r k) [] rfl _ hmid
      have houter : outerStep dist maxd γ r ids coords s k =
          (ballIndices coords r k).foldl (visitStep dist maxd γ ids coords k)
            { s with nodes_checked := s.nodes_checked + 1 } := rfl
      rw [houter]
      dsimp only at c1 c2 c3
      have hnil : ([] : List ℕ) ++ ballIndices coords r k = ballIndices coords r k := rfl
      rw [hnil] at hinv2
      refine ⟨?_, by omega, by omega, by omega⟩
      refine PTInv_congr dist γ ids coords H0 _ _ ?_ _ hinv2
      intro i j
      unfold WIn
      constructor
      · rintro ⟨ha, hocc⟩
        refine ⟨ha, Or.inl ?_⟩
        rcases hocc with h | ⟨heq, _⟩
        · omega
        · omega
      · rintro ⟨ha, hocc⟩
        refine ⟨ha, ?_⟩
        rcases hocc with h | ⟨_, h2⟩
        · by_cases hik : i = k
          · subst hik
            refine Or.inr ⟨rfl, ?_⟩
            have hb := (addAtB_ball dist maxd r ids coords H0 i j ha).1
            exact (mem_ballIndices_iff coords r i j).mpr hb
          · exact Or.inl (by omega)
        · simp at h2

theorem add_connections_eq (dist : ℚ × ℚ → ℚ × ℚ → ℚ) (cosdeg : ℚ → ℚ) (maxd γ : ℚ)
    (g : DiGraph) (ids : List String) (coords : List (ℚ × ℚ)) :
    add_connections dist cosdeg maxd γ g ids coords =
      ((runFinalState dist cosdeg maxd γ g ids coords).g,
        ⟨(runFinalState dist cosdeg maxd γ g ids coords).edges_added,
         (runFinalState dist cosdeg maxd γ g ids coords).pairs.card,
         (runFinalState dist cosdeg maxd γ g ids coords).nodes_checked,
         (runFinalState dist cosdeg maxd γ g ids coords).skipped_existing,
         (runFinalState dist cosdeg maxd γ g ids coords).skipped_too_far⟩) := rfl

theorem runFinalState_char (dist : ℚ × ℚ → ℚ × ℚ → ℚ) (cosdeg : ℚ → ℚ) (maxd γ : ℚ)
    (ids : List String) (coords : List (ℚ × ℚ)) (H0 : DiGraph)
    (HYP : PTHyp ids coords H0) :
    PTInv dist γ ids coords H0
        (WAll dist maxd (searchRadiusDeg cosdeg maxd coords) ids coords H0)
        (runFinalState dist cosdeg maxd γ H0 ids coords) ∧
      ((runFinalState dist cosdeg maxd γ H0 ids coords).skipped_existing +
          (runFinalState dist cosdeg maxd γ H0 ids coords).pairs.card =
        dokCountUpTo dist maxd (searchRadiusDeg cosdeg maxd coords) coords ids.length) ∧
      ((runFinalState dist cosdeg maxd γ H0 ids coords).skipped_too_far =
        tooFarCountUpTo dist maxd (searchRadiusDeg cosdeg maxd coords) coords ids.length) ∧
      ((runFinalState dist cosdeg maxd γ H0 ids coords).nodes_checked = ids.length) := by
  obtain ⟨hinv, c1, c2, c3⟩ :=
    outer_char dist maxd γ (searchRadiusDeg cosdeg maxd coords) ids coords H0 HYP
      ids.length le_rfl
  refine ⟨?_, c1, c2, c3⟩
  refine PTInv_congr dist γ ids coords H0 _ _ ?_ _ hinv
  intro i j
  unfold WIn WAll
  constructor
  · rintro ⟨ha, hocc⟩
    rcases hocc with h | ⟨_, h2⟩
    · exact ⟨ha, h⟩
    · simp at h2
  · rintro ⟨ha, h⟩
    exact ⟨ha, Or.inl h⟩

theorem PTHyp_extract (g : DiGraph) (h : (g.nodes.map (fun nd => nd.1)).Nodup) :
    PTHyp (ptIds g) (ptCoords g) g := by
  refine ⟨?_, ?_, ?_⟩
  · unfold ptIds extract_pt_nodes
    have hsub : List.Sublist
        ((g.nodes.filter (fun nd => (attrGet nd.2 "lat").isSome &&
          (attrGet nd.2 "lon").isSome)).map (fun nd => nd.1))
        (g.nodes.map (fun nd => nd.1)) :=
      List.Sublist.map _ (List.filter_sublist _)
    exact h.sublist hsub
  · unfold ptIds ptCoords
    rw [List.length_map, List.length_map]
  · intro i hi
    have hmem : idAt (ptIds g) i ∈ ptIds g := by
      unfold idAt
      rw [List.getD_eq_getElem _ _ hi]
      exact List.getElem_mem _
    unfold ptIds at hmem
    rcases List.mem_map.mp hmem with ⟨nd, hnd, heq⟩
    have hin : nd ∈ g.nodes := (List.mem_filter.mp hnd).1
    rw [hasNode, List.any_eq_true]
    exact ⟨nd, hin, by simp [heq, ptIds]⟩

theorem GraphWF_visitStep (dist : ℚ × ℚ → ℚ × ℚ → ℚ) (maxd γ : ℚ)
    (ids : List String) (coords : List (ℚ × ℚ)) (i : ℕ) (st : RunState) (j : ℕ)
    (h : GraphWF st.g) : GraphWF (visitStep dist maxd γ ids coords i st j).g := by
  unfold visitStep
  split
  · exact h
  · dsimp only
    split
    · exact h
    · split
      · exact h
      · exact GraphWF_addEdge _ _ _ _ (GraphWF_addEdge _ _ _ _ h)

theorem GraphWF_foldl_visit (dist : ℚ × ℚ → ℚ × ℚ → ℚ) (maxd γ : ℚ)
    (ids : List String) (coords : List (ℚ × ℚ)) (i : ℕ) :
    ∀ (l : List ℕ) (st : RunState), GraphWF st.g →
      GraphWF (l.foldl (visitStep dist maxd γ ids coords i) st).g := by
  intro l
  induction l with
  | nil => intro st h; exact h
  | cons j rest ih =>
      intro st h
      exact ih _ (GraphWF_visitStep dist maxd γ ids coords i st j h)

theorem GraphWF_runFinalState (dist : ℚ × ℚ → ℚ × ℚ → ℚ) (cosdeg : ℚ → ℚ)
    (maxd γ : ℚ) (g : DiGraph) (ids : List String) (coords : List (ℚ × ℚ))
    (h : GraphWF g) : GraphWF (runFinalState dist cosdeg maxd γ g ids coords).g := by
  unfold runFinalState
  have hgen : ∀ (l : List ℕ) (st : RunState), GraphWF st.g →
      GraphWF ((l.foldl (outerStep dist maxd γ
        (searchRadiusDeg cosdeg maxd coords) ids coords) st)).g := by
    intro l
    induction l with
    | nil => intro st hst; exact hst
    | cons k rest ih =>
        intro st hst
        refine ih _ ?_
        unfold outerStep
        exact GraphWF_foldl_visit dist maxd γ ids coords k _ _ hst
  exact hgen _ _ h

theorem add_walking_edges_run (dist : ℚ × ℚ → ℚ × ℚ → ℚ) (cosdeg : ℚ → ℚ)
    (maxd γ : ℚ) (g0 : DiGraph)
    (hne : (extract_pt_nodes (clearWalkEdges g0)).isEmpty = false) :
    add_walking_edges dist cosdeg maxd γ g0 =
      ((runFinalState dist cosdeg maxd γ (clearWalkEdges g0)
          (ptIds (clearWalkEdges g0)) (ptCoords (clearWalkEdges g0))).g,
        .ok ⟨(runFinalState dist cosdeg maxd γ (clearWalkEdges g0)
            (ptIds (clearWalkEdges g0)) (ptCoords (clearWalkEdges g0))).edges_added,
          (runFinalState dist cosdeg maxd γ (clearWalkEdges g0)
            (ptIds (clearWalkEdges g0)) (ptCoords (clearWalkEdges g0))).pairs.card,
          (runFinalState dist cosdeg maxd γ (clearWalkEdges g0)
            (ptIds (clearWalkEdges g0)) (ptCoords (clearWalkEdges g0))).nodes_checked,
          (runFinalState dist cosdeg maxd γ (clearWalkEdges g0)
            (ptIds (clearWalkEdges g0)) (ptCoords (clearWalkEdges g0))).skipped_existing,
          (runFinalState dist cosdeg maxd γ (clearWalkEdges g0)
            (ptIds (clearWalkEdges g0)) (ptCoords (clearWalkEdges g0))).skipped_too_far⟩) := by
  unfold add_walking_edges
  rw [if_neg (by rw [hne]; exact Bool.false_ne_true)]
  rfl

theorem add_walking_edges_empty (dist : ℚ × ℚ → ℚ × ℚ → ℚ) (cosdeg : ℚ → ℚ)
    (maxd γ : ℚ) (g0 : DiGraph)
    (he : (extract_pt_nodes (clearWalkEdges g0)).isEmpty = true) :
    add_walking_edges dist cosdeg maxd γ g0 =
      (clearWalkEdges g0, .err "no_pt_nodes") := by
  unfold add_walking_edges
  rw [if_pos he]

theorem addAtB_not_hasEdge (dist : ℚ × ℚ → ℚ × ℚ → ℚ) (maxd r : ℚ)
    (ids : List String) (coords : List (ℚ × ℚ)) (H0 : DiGraph) (i j : ℕ)
    (h : addAtB dist maxd r ids coords H0 i j = true) :
    hasEdge H0 (idAt ids i) (idAt ids j) = false := by
  unfold addAtB addFirstB at h
  rcases lt_trichotomy i j with h1 | h1 | h1
  · rw [if_pos h1] at h
    simp only [Bool.and_eq_true, Bool.not_eq_true'] at h
    exact h.2
  · subst h1; simp at h
  · rw [if_neg (by omega), if_pos h1] at h
    simp only [Bool.and_eq_true, Bool.not_eq_true'] at h
    exact h.1.2

theorem addAtB_ne (dist : ℚ × ℚ → ℚ × ℚ → ℚ) (maxd r : ℚ)
    (ids : List String) (coords : List (ℚ × ℚ)) (H0 : DiGraph) (i j : ℕ)
    (h : addAtB dist maxd r ids coords H0 i j = true) : i ≠ j := by
  intro hc
  subst hc
  rw [addAtB_self_false] at h
  exact Bool.false_ne_true h

/-- Membership of a string pair among the inserted directions, at the level
of index pairs. -/
theorem AddedDir_pair_iff (dist : ℚ × ℚ → ℚ × ℚ → ℚ) (maxd r : ℚ)
    (ids : List String) (coords : List (ℚ × ℚ)) (H0 : DiGraph)
    (hnodup : ids.Nodup) (a b : ℕ) (ha : a < ids.length) (hb : b < ids.length) :
    AddedDir dist maxd r ids coords H0 (idAt ids a) (idAt ids b) ↔
      (addAtB dist maxd r ids coords H0 a b = true ∨
        addAtB dist maxd r ids coords H0 b a = true) := by
  constructor
  · rintro ⟨i, j, hi, hj, ⟨haij, _⟩, hm⟩
    rcases hm with ⟨h1, h2⟩ | ⟨h1, h2⟩
    · have hia : a = i := idAt_inj ids hnodup a i ha hi h1
      have hjb : b = j := idAt_inj ids hnodup b j hb hj h2
      subst hia; subst hjb
      exact Or.inl haij
    · have hia : a = j := idAt_inj ids hnodup a j ha hj h1
      have hjb : b = i := idAt_inj ids hnodup b i hb hi h2
      subst hia; subst hjb
      exact Or.inr haij
  · rintro (h | h)
    · exact ⟨a, b, ha, hb, ⟨h, ha⟩, Or.inl ⟨rfl, rfl⟩⟩
    · exact ⟨b, a, hb, ha, ⟨h, hb⟩, Or.inr ⟨rfl, rfl⟩⟩

theorem inBallB_symm_eq (coords : List (ℚ × ℚ)) (r : ℚ) (a b : ℕ)
    (ha : a < coords.length) (hb : b < coords.length) :
    inBallB coords r b a = inBallB coords r a b := by
  rw [Bool.eq_iff_iff, inBallB_iff, inBallB_iff, sqDeg_comm]
  constructor
  · rintro ⟨_, h2⟩; exact ⟨hb, h2⟩
  · rintro ⟨_, h2⟩; exact ⟨ha, h2⟩

/-- The Boolean core of the per-pair idempotency argument: removing both
directions of every inserted pair from the pre-loop graph leaves the set of
inserted pairs unchanged. -/
theorem pairAdd_transfer_bool : ∀ (B D1 D2 P Q : Bool),
    ((B && D1 && !(P && !((B && D1 && !P) || (B && D2 && !Q && !(B && D1 && !P))))) ||
      (B && D2 && !(Q && !((B && D1 && !P) || (B && D2 && !Q && !(B && D1 && !P)))) &&
        !(B && D1 && !(P && !((B && D1 && !P) || (B && D2 && !Q && !(B && D1 && !P))))))) =
    ((B && D1 && !P) || (B && D2 && !Q && !(B && D1 && !P))) := by
  decide

/-- The awaited per-pair transfer: relative to a pre-loop graph from which
exactly the previously inserted directions were removed, a pair is inserted
iff it was inserted in the original run. -/
theorem pairAdded_transfer (dist : ℚ × ℚ → ℚ × ℚ → ℚ) (maxd r : ℚ)
    (ids : List String) (coords : List (ℚ × ℚ)) (H0 H2 : DiGraph)
    (hlen : coords.length = ids.length)
    (a b : ℕ) (ha : a < ids.length) (hb : b < ids.length) (hab : a < b)
    (hP : hasEdge H2 (idAt ids a) (idAt ids b) =
      (hasEdge H0 (idAt ids a) (idAt ids b) &&
        !(addAtB dist maxd r ids coords H0 a b || addAtB dist maxd r ids coords H0 b a)))
    (hQ : hasEdge H2 (idAt ids b) (idAt ids a) =
      (hasEdge H0 (idAt ids b) (idAt ids a) &&
        !(addAtB dist maxd r ids coords H0 a b || addAtB dist maxd r ids coords H0 b a))) :
    (addAtB dist maxd r ids coords H2 a b || addAtB dist maxd r ids coords H2 b a) =
      (addAtB dist maxd r ids coords H0 a b || addAtB dist maxd r ids coords H0 b a) := by
  have hsym : inBallB coords r b a = inBallB coords r a b :=
    inBallB_symm_eq coords r a b (by omega) (by omega)
  have e1 : ∀ H : DiGraph, addAtB dist maxd r ids coords H a b =
      (inBallB coords r a b && dOKB dist maxd coords a b &&
        !hasEdge H (idAt ids a) (idAt ids b)) := by
    intro H
    rw [addFirstB_of_lt dist maxd r ids coords H a b hab]
    rfl
  have e2 : ∀ H : DiGraph, addAtB dist maxd r ids coords H b a =
      (inBallB coords r a b && dOKB dist maxd coords b a &&
        !hasEdge H (idAt ids b) (idAt ids a) &&
        !(inBallB coords r a b && dOKB dist maxd coords a b &&
          !hasEdge H (idAt ids a) (idAt ids b))) := by
    intro H
    unfold addAtB
    rw [if_neg (by omega), if_pos hab, hsym]
    unfold addFirstB
    rfl
  rw [e1 H2, e2 H2, e1 H0, e2 H0, hP, hQ, e1 H0, e2 H0]
  exact pairAdd_transfer_bool (inBallB coords r a b) (dOKB dist maxd coords a b)
    (dOKB dist maxd coords b a) (hasEdge H0 (idAt ids a) (idAt ids b))
    (hasEdge H0 (idAt ids b) (idAt ids a))

theorem extract_congr (g h : DiGraph) (hn : g.nodes = h.nodes) :
    extract_pt_nodes g = extract_pt_nodes h := by
  unfold extract_pt_nodes
  rw [hn]

theorem ptIds_congr (g h : DiGraph) (he : extract_pt_nodes g = extract_pt_nodes h) :
    ptIds g = ptIds h := by
  unfold ptIds
  rw [he]

theorem ptCoords_congr (g h : DiGraph) (he : extract_pt_nodes g = extract_pt_nodes h) :
    ptCoords g = ptCoords h := by
  unfold ptCoords
  rw [he]

theorem run_hyp (g0 : DiGraph) (hwf : GraphWF g0) :
    PTHyp (ptIds (clearWalkEdges g0)) (ptCoords (clearWalkEdges g0)) (clearWalkEdges g0) :=
  PTHyp_extract (clearWalkEdges g0) hwf.1

theorem run_walkPt_iff (dist : ℚ × ℚ → ℚ × ℚ → ℚ) (cosdeg : ℚ → ℚ) (maxd γ : ℚ)
    (g0 : DiGraph) (hwf : GraphWF g0) (x y : String) :
    walkPtEdge (runFinalState dist cosdeg maxd γ (clearWalkEdges g0)
        (ptIds (clearWalkEdges g0)) (ptCoords (clearWalkEdges g0))).g x y = true ↔
      AddedDir dist maxd (searchRadiusDeg cosdeg maxd (ptCoords (clearWalkEdges g0)))
        (ptIds (clearWalkEdges g0)) (ptCoords (clearWalkEdges g0))
        (clearWalkEdges g0) x y := by
  obtain ⟨hinv, -, -, -⟩ := runFinalState_char dist cosdeg maxd γ
    (ptIds (clearWalkEdges g0)) (ptCoords (clearWalkEdges g0)) (clearWalkEdges g0)
    (run_hyp g0 hwf)
  constructor
  · intro h
    by_cases hd : AddedDir dist maxd
        (searchRadiusDeg cosdeg maxd (ptCoords (clearWalkEdges g0)))
        (ptIds (clearWalkEdges g0)) (ptCoords (clearWalkEdges g0))
        (clearWalkEdges g0) x y
    · exact hd
    · exfalso
      have hold := hinv.dataOld x y hd
      rw [walkPtEdge, hold] at h
      have hclr := walkPtEdge_clearWalkEdges g0 hwf.2 x y
      rw [walkPtEdge] at hclr
      rw [hclr] at h
      exact Bool.false_ne_true h
  · intro hd
    obtain ⟨i, j, hi, hj, hW, hm⟩ := hd
    have hda := hinv.dataAdded i j hW
    rcases hm with ⟨h1, h2⟩ | ⟨h1, h2⟩
    · rw [h1, h2]
      exact walkPtEdge_of_WalkValues _ _ _ _ _ hda.1
    · rw [h1, h2]
      exact walkPtEdge_of_WalkValues _ _ _ _ _ hda.2

theorem run_twice_core (dist : ℚ × ℚ → ℚ × ℚ → ℚ) (cosdeg : ℚ → ℚ) (maxd γ : ℚ)
    (g0 : DiGraph) (hwf : GraphWF g0) :
    (∀ x y, hasEdge (runFinalState dist cosdeg maxd γ
        (clearWalkEdges (runFinalState dist cosdeg maxd γ (clearWalkEdges g0)
          (ptIds (clearWalkEdges g0)) (ptCoords (clearWalkEdges g0))).g)
        (ptIds (clearWalkEdges g0)) (ptCoords (clearWalkEdges g0))).g x y =
      hasEdge (runFinalState dist cosdeg maxd γ (clearWalkEdges g0)
        (ptIds (clearWalkEdges g0)) (ptCoords (clearWalkEdges g0))).g x y) ∧
    ((runFinalState dist cosdeg maxd γ
        (clearWalkEdges (runFinalState dist cosdeg maxd γ (clearWalkEdges g0)
          (ptIds (clearWalkEdges g0)) (ptCoords (clearWalkEdges g0))).g)
        (ptIds (clearWalkEdges g0)) (ptCoords (clearWalkEdges g0))).pairs =
      (runFinalState dist cosdeg maxd γ (clearWalkEdges g0)
        (ptIds (clearWalkEdges g0)) (ptCoords (clearWalkEdges g0))).pairs) ∧
    ((runFinalState dist cosdeg maxd γ
        (clearWalkEdges (runFinalState dist cosdeg maxd γ (clearWalkEdges g0)
          (ptIds (clearWalkEdges g0)) (ptCoords (clearWalkEdges g0))).g)
        (ptIds (clearWalkEdges g0)) (ptCoords (clearWalkEdges g0))).skipped_existing =
      (runFinalState dist cosdeg maxd γ (clearWalkEdges g0)
        (ptIds (clearWalkEdges g0)) (ptCoords (clearWalkEdges g0))).skipped_existing) ∧
    ((runFinalState dist cosdeg maxd γ
        (clearWalkEdges (runFinalState dist cosdeg maxd γ (clearWalkEdges g0)
          (ptIds (clearWalkEdges g0)) (ptCoords (clearWalkEdges g0))).g)
        (ptIds (clearWalkEdges g0)) (ptCoords (clearWalkEdges g0))).skipped_too_far =
      (runFinalState dist cosdeg maxd γ (clearWalkEdges g0)
        (ptIds (clearWalkEdges g0)) (ptCoords (clearWalkEdges g0))).skipped_too_far) ∧
    ((runFinalState dist cosdeg maxd γ
        (clearWalkEdges (runFinalState dist cosdeg maxd γ (clearWalkEdges g0)
          (ptIds (clearWalkEdges g0)) (ptCoords (clearWalkEdges g0))).g)
        (ptIds (clearWalkEdges g0)) (ptCoords (clearWalkEdges g0))).nodes_checked =
      (runFinalState dist cosdeg maxd γ (clearWalkEdges g0)
        (ptIds (clearWalkEdges g0)) (ptCoords (clearWalkEdges g0))).nodes_checked) ∧
    ((runFinalState dist cosdeg maxd γ
        (clearWalkEdges (runFinalState dist cosdeg maxd γ (clearWalkEdges g0)
          (ptIds (clearWalkEdges g0)) (ptCoords (clearWalkEdges g0))).g)
        (ptIds (clearWalkEdges g0)) (ptCoords (clearWalkEdges g0))).edges_added =
      (runFinalState dist cosdeg maxd γ (clearWalkEdges g0)
        (ptIds (clearWalkEdges g0)) (ptCoords (clearWalkEdges g0))).edges_added) := by
  have HYP := run_hyp g0 hwf
  set ids := ptIds (clearWalkEdges g0) with hids_def
  set coords := ptCoords (clearWalkEdges g0) with hcoords_def
  set r := searchRadiusDeg cosdeg maxd coords with hr_def
  set H0 := clearWalkEdges g0 with hH0_def
  obtain ⟨hinv, c1, c2, c3⟩ := runFinalState_char dist cosdeg maxd γ ids coords H0 HYP
  set FS := runFinalState dist cosdeg maxd γ H0 ids coords with hFS_def
  set H2 := clearWalkEdges FS.g with hH2_def
  have hWF1 : GraphWF FS.g :=
    GraphWF_runFinalState dist cosdeg maxd γ H0 ids coords (GraphWF_clearWalkEdges g0 hwf)
  have hwp_iff : ∀ x y, walkPtEdge FS.g x y = true ↔
      AddedDir dist maxd r ids coords H0 x y :=
    run_walkPt_iff dist cosdeg maxd γ g0 hwf
  have hH2has : ∀ x y, hasEdge H2 x y = (hasEdge FS.g x y && !walkPtEdge FS.g x y) :=
    hasEdge_clearWalkEdges FS.g hWF1.2
  have HYP2 : PTHyp ids coords H2 := by
    refine ⟨HYP.nodup, HYP.len, ?_⟩
    intro i hi
    have hn2 : H2.nodes = H0.nodes := hinv.nodesEq
    rw [hasNode_congr H2 H0 hn2]
    exact HYP.inGraph i hi
  obtain ⟨hinv2, s1, s2, s3⟩ := runFinalState_char dist cosdeg maxd γ ids coords H2 HYP2
  set FS2 := runFinalState dist cosdeg maxd γ H2 ids coords with hFS2_def
  have hH2iff : ∀ x y, hasEdge H2 x y = true ↔
      (hasEdge H0 x y = true ∧ ¬ AddedDir dist maxd r ids coords H0 x y) := by
    intro x y
    rw [hH2has, Bool.and_eq_true, Bool.not_eq_true']
    rw [hinv.hasEq x y]
    constructor
    · rintro ⟨h1, h2⟩
      have hnd : ¬ AddedDir dist maxd r ids coords H0 x y := by
        intro hc
        rw [(hwp_iff x y).mpr hc] at h2
        exact absurd h2 (by decide)
      rcases h1 with h1 | h1
      · exact ⟨h1, hnd⟩
      · exact absurd h1 hnd
    · rintro ⟨h1, h2⟩
      refine ⟨Or.inl h1, ?_⟩
      cases hh : walkPtEdge FS.g x y
      · rfl
      · exact absurd ((hwp_iff x y).mp hh) h2
  have hP2 : ∀ a b, a < ids.length → b < ids.length → a ≠ b →
      hasEdge H2 (idAt ids a) (idAt ids b) =
        (hasEdge H0 (idAt ids a) (idAt ids b) &&
          !(addAtB dist maxd r ids coords H0 a b ||
            addAtB dist maxd r ids coords H0 b a)) := by
    intro a b ha hb hab
    rw [Bool.eq_iff_iff, Bool.and_eq_true, Bool.not_eq_true']
    rw [hH2iff, AddedDir_pair_iff dist maxd r ids coords H0 HYP.nodup a b ha hb]
    constructor
    · rintro ⟨h1, h2⟩
      refine ⟨h1, ?_⟩
      cases hc : (addAtB dist maxd r ids coords H0 a b ||
          addAtB dist maxd r ids coords H0 b a)
      · rfl
      · exfalso
        rcases (Bool.or_eq_true _ _).mp hc with h | h
        · exact h2 (Or.inl h)
        · exact h2 (Or.inr h)
    · rintro ⟨h1, h2⟩
      refine ⟨h1, ?_⟩
      rintro (h | h)
      · rw [h] at h2
        simp at h2
      · rw [h] at h2
        simp at h2
  have htrans : ∀ a b, a < ids.length → b < ids.length → a < b →
      (addAtB dist maxd r ids coords H2 a b || addAtB dist maxd r ids coords H2 b a) =
        (addAtB dist maxd r ids coords H0 a b || addAtB dist maxd r ids coords H0 b a) := by
    intro a b ha hb hab
    refine pairAdded_transfer dist maxd r ids coords H0 H2 HYP.len a b ha hb hab
      (hP2 a b ha hb (by omega)) ?_
    have h2 := hP2 b a hb ha (by omega)
    rw [h2, Bool.or_comm]
  have hpairtrans : ∀ a b, a < ids.length → b < ids.length → a ≠ b →
      ((addAtB dist maxd r ids coords H2 a b = true ∨
          addAtB dist maxd r ids coords H2 b a = true) ↔
        (addAtB dist maxd r ids coords H0 a b = true ∨
          addAtB dist maxd r ids coords H0 b a = true)) := by
    intro a b ha hb hab
    rcases lt_or_gt_of_ne hab with h1 | h1
    · have ht := htrans a b ha hb h1
      constructor
      · intro h
        have : (addAtB dist maxd r ids coords H2 a b ||
            addAtB dist maxd r ids coords H2 b a) = true := by
          rcases h with h | h <;> simp [h]
        rw [ht] at this
        rcases (Bool.or_eq_true _ _).mp this with h | h
        · exact Or.inl h
        · exact Or.inr h
      · intro h
        have : (addAtB dist maxd r ids coords H0 a b ||
            addAtB dist maxd r ids coords H0 b a) = true := by
          rcases h with h | h <;> simp [h]
        rw [← ht] at this
        rcases (Bool.or_eq_true _ _).mp this with h | h
        · exact Or.inl h
        · exact Or.inr h
    · have ht := htrans b a hb ha h1
      constructor
      · intro h
        have : (addAtB dist maxd r ids coords H2 b a ||
            addAtB dist maxd r ids coords H2 a b) = true := by
          rcases h with h | h <;> simp [h]
        rw [ht] at this
        rcases (Bool.or_eq_true _ _).mp this with h | h
        · exact Or.inr h
        · exact Or.inl h
      · intro h
        have : (addAtB dist maxd r ids coords H0 b a ||
            addAtB dist maxd r ids coords H0 a b) = true := by
          rcases h with h | h <;> simp [h]
        rw [← ht] at this
        rcases (Bool.or_eq_true _ _).mp this with h | h
        · exact Or.inr h
        · exact Or.inl h
  have hDMtrans : ∀ x y, AddedDir dist maxd r ids coords H2 x y ↔
      AddedDir dist maxd r ids coords H0 x y := by
    intro x y
    constructor
    · rintro ⟨i, j, hi, hj, ⟨ha2, _⟩, hm⟩
      have hij := addAtB_ne dist maxd r ids coords H2 i j ha2
      rcases (hpairtrans i j hi hj hij).mp (Or.inl ha2) with h | h
      · exact ⟨i, j, hi, hj, ⟨h, hi⟩, hm⟩
      · refine ⟨j, i, hj, hi, ⟨h, hj⟩, ?_⟩
        rcases hm with ⟨h1, h2⟩ | ⟨h1, h2⟩
        · exact Or.inr ⟨h1, h2⟩
        · exact Or.inl ⟨h1, h2⟩
    · rintro ⟨i, j, hi, hj, ⟨ha2, _⟩, hm⟩
      have hij := addAtB_ne dist maxd r ids coords H0 i j ha2
      rcases (hpairtrans i j hi hj hij).mpr (Or.inl ha2) with h | h
      · exact ⟨i, j, hi, hj, ⟨h, hi⟩, hm⟩
      · refine ⟨j, i, hj, hi, ⟨h, hj⟩, ?_⟩
        rcases hm with ⟨h1, h2⟩ | ⟨h1, h2⟩
        · exact Or.inr ⟨h1, h2⟩
        · exact Or.inl ⟨h1, h2⟩
  have hpairs : FS2.pairs = FS.pairs := by
    apply Finset.ext
    intro p
    rw [hinv2.pairsMem p, hinv.pairsMem p]
    constructor
    · rintro ⟨i, j, hi, hj, ⟨ha2, _⟩, hp⟩
      have hij := addAtB_ne dist maxd r ids coords H2 i j ha2
      rcases (hpairtrans i j hi hj hij).mp (Or.inl ha2) with h | h
      · exact ⟨i, j, hi, hj, ⟨h, hi⟩, hp⟩
      · refine ⟨j, i, hj, hi, ⟨h, hj⟩, ?_⟩
        rw [hp]
        exact sortPair_comm _ _
    · rintro ⟨i, j, hi, hj, ⟨ha2, _⟩, hp⟩
      have hij := addAtB_ne dist maxd r ids coords H0 i j ha2
      rcases (hpairtrans i j hi hj hij).mpr (Or.inl ha2) with h | h
      · exact ⟨i, j, hi, hj, ⟨h, hi⟩, hp⟩
      · refine ⟨j, i, hj, hi, ⟨h, hj⟩, ?_⟩
        rw [hp]
        exact sortPair_comm _ _
  have hcard : FS2.pairs.card = FS.pairs.card := by rw [hpairs]
  refine ⟨?_, hpairs, by omega, by rw [s2, c2], by rw [s3, c3], ?_⟩
  · intro x y
    rw [Bool.eq_iff_iff, hinv2.hasEq x y, hinv.hasEq x y, hH2iff x y]
    have hd := hDMtrans x y
    unfold AddedDir at hd
    rw [hd]
    tauto
  · rw [hinv2.edgesCard, hinv.edgesCard, hcard]

/-! ## Well-formedness of the merged graph -/

theorem GraphWF_foldl {α : Type} (f : DiGraph → α → DiGraph) (l : List α)
    (hf : ∀ g x, GraphWF g → GraphWF (f g x)) (g : DiGraph) (hg : GraphWF g) :
    GraphWF (l.foldl f g) := by
  induction l generalizing g with
  | nil => exact hg
  | cons x rest ih => exact ih _ (hf g x hg)

theorem names_nodeWrite_subset (ns : List (String × Attrs)) (u : String) (a : Attrs) :
    ∀ x ∈ (nodeWrite ns u a).map (fun nd => nd.1), x ∈ ns.map (fun nd => nd.1) ∨ x = u := by
  induction ns with
  | nil => simp [nodeWrite]
  | cons nd rest ih =>
      by_cases h : (nd.1 == u) = true
      · intro x hx
        rw [nodeWrite, if_pos h] at hx
        rcases List.mem_map.mp hx with ⟨nd2, hnd2, rfl⟩
        rcases List.mem_cons.mp hnd2 with rfl | h2
        · right; rfl
        · left
          simp only [List.map_cons, List.mem_cons]
          right
          exact List.mem_map_of_mem _ h2
      · intro x hx
        rw [nodeWrite, if_neg h] at hx
        rcases List.mem_map.mp hx with ⟨nd2, hnd2, rfl⟩
        rcases List.mem_cons.mp hnd2 with rfl | h2
        · left; simp
        · rcases ih _ (List.mem_map_of_mem _ h2) with h3 | h3
          · left
            simp only [List.map_cons, List.mem_cons]
            right
            exact h3
          · right; exact h3

theorem nodup_names_nodeWrite (ns : List (String × Attrs)) (u : String) (a : Attrs)
    (h : (ns.map (fun nd => nd.1)).Nodup) :
    ((nodeWrite ns u a).map (fun nd => nd.1)).Nodup := by
  induction ns with
  | nil => simp [nodeWrite]
  | cons nd rest ih =>
      rw [List.map_cons, List.nodup_cons] at h
      obtain ⟨hnm, hnd⟩ := h
      by_cases hb : (nd.1 == u) = true
      · have hu : nd.1 = u := by simpa using hb
        rw [nodeWrite, if_pos hb, List.map_cons, List.nodup_cons]
        exact ⟨by rw [← hu]; exact hnm, hnd⟩
      · rw [nodeWrite, if_neg hb, List.map_cons, List.nodup_cons]
        refine ⟨?_, ih hnd⟩
        intro hcmem
        rcases names_nodeWrite_subset rest u a _ hcmem with h3 | h3
        · exact hnm h3
        · exact hb (by simp [h3])

theorem GraphWF_empty : GraphWF DiGraph.empty :=
  ⟨List.nodup_nil, List.nodup_nil⟩

theorem GraphWF_addNodeData (g : DiGraph) (u : String) (a : Attrs) (h : GraphWF g) :
    GraphWF (addNodeData g u a) :=
  ⟨nodup_names_nodeWrite g.nodes u a h.1, h.2⟩

theorem GraphWF_addNodesFrom (g : DiGraph) (ns : List (String × Attrs)) (h : GraphWF g) :
    GraphWF (addNodesFrom g ns) :=
  GraphWF_foldl _ ns (fun g2 nd hg2 => GraphWF_addNodeData g2 nd.1 nd.2 hg2) g h

theorem GraphWF_addEdgesFrom (g : DiGraph) (es : List (String × String × Attrs))
    (h : GraphWF g) : GraphWF (addEdgesFrom g es) :=
  GraphWF_foldl _ es (fun g2 e hg2 => GraphWF_addEdge g2 e.1 e.2.1 e.2.2 hg2) g h

theorem GraphWF_backfillWalk (gpt g : DiGraph) (h : GraphWF g) :
    GraphWF (backfillWalk gpt g) := by
  unfold backfillWalk
  refine GraphWF_foldl _ gpt.edges ?_ g h
  intro g2 e hg2
  dsimp only
  split
  · exact GraphWF_addEdge _ _ _ _ hg2
  · exact hg2

theorem GraphWF_backfillTransport (g : DiGraph) (h : GraphWF g) :
    GraphWF (backfillTransport g) := by
  unfold backfillTransport
  refine GraphWF_foldl _ g.edges ?_ g h
  intro g2 e hg2
  dsimp only
  split
  · exact GraphWF_addEdge _ _ _ _ hg2
  · exact hg2

theorem GraphWF_addConnectionEdges (g : DiGraph) (cs : List ConnRecord) (h : GraphWF g) :
    GraphWF (addConnectionEdges g cs) :=
  GraphWF_foldl _ cs (fun g2 c hg2 => GraphWF_addEdge g2 _ _ _ hg2) g h

theorem GraphWF_combined (gpt gcar : DiGraph) (conns : List ConnRecord) :
    GraphWF (create_combined_graph gpt gcar conns) :=
  GraphWF_addConnectionEdges _ conns
    (GraphWF_addEdgesFrom _ gcar.edges
      (GraphWF_addNodesFrom _ gcar.nodes
        (GraphWF_backfillTransport _
          (GraphWF_backfillWalk gpt _
            (GraphWF_addEdgesFrom _ gpt.edges
              (GraphWF_addNodesFrom _ gpt.nodes GraphWF_empty))))))

/-! ## The backfill pass completes walking pairs -/

theorem hasEdge_mono_addEdge (g : DiGraph) (u v : String) (a : Attrs) (x y : String)
    (h : hasEdge g x y = true) : hasEdge (addEdge g u v a) x y = true := by
  rw [hasEdge_addEdge, h, Bool.true_or]

theorem hasEdge_backfill_fold (L : List (String × String × Attrs)) (g : DiGraph)
    (x y : String) (h : hasEdge g x y = true) :
    hasEdge (L.foldl (fun acc e =>
      if isWalkPt e.2.2 && !hasEdge acc e.2.1 e.1 then addEdge acc e.2.1 e.1 e.2.2
      else acc) g) x y = true := by
  induction L generalizing g with
  | nil => exact h
  | cons e rest ih =>
      rw [List.foldl_cons]
      apply ih
      split
      · exact hasEdge_mono_addEdge _ _ _ _ _ _ h
      · exact h

theorem hasEdge_backfill_fold_mem (L : List (String × String × Attrs)) (g : DiGraph)
    (u v : String) (a : Attrs) (hmem : (u, v, a) ∈ L) (hw : isWalkPt a = true) :
    hasEdge (L.foldl (fun acc e =>
      if isWalkPt e.2.2 && !hasEdge acc e.2.1 e.1 then addEdge acc e.2.1 e.1 e.2.2
      else acc) g) v u = true := by
  induction L generalizing g with
  | nil => cases hmem
  | cons e rest ih =>
      rw [List.foldl_cons]
      rcases List.mem_cons.mp hmem with heq | hmem2
      · apply hasEdge_backfill_fold
        rw [← heq]
        dsimp only
        by_cases hg : hasEdge g v u = true
        · rw [hg]
          simp only [Bool.not_true, Bool.and_false]
          rw [if_neg Bool.false_ne_true]
          exact hg
        · rw [Bool.not_eq_true] at hg
          rw [hg, hw]
          simp only [Bool.not_false, Bool.and_self]
          rw [if_pos trivial]
          rw [hasEdge_addEdge]
          simp
      · exact ih _ hmem2

theorem backfillWalk_reverse (gpt g : DiGraph) (u v : String) (a : Attrs)
    (hmem : (u, v, a) ∈ gpt.edges) (hw : isWalkPt a = true) :
    hasEdge (backfillWalk gpt g) v u = true :=
  hasEdge_backfill_fold_mem gpt.edges g u v a hmem hw

/-! ## Edge multiplicity under well-formedness -/

theorem count_pair_one (L : List (String × String × Attrs))
    (hwf : (L.map (fun e => (e.1, e.2.1))).Nodup) (u v : String)
    (h : L.any (fun e => e.1 == u && e.2.1 == v) = true) :
    (L.filter (fun e => e.1 == u && e.2.1 == v)).length = 1 := by
  induction L with
  | nil => simp at h
  | cons e rest ih =>
      rw [List.map_cons, List.nodup_cons] at hwf
      obtain ⟨hnm, hnd⟩ := hwf
      cases hp : (e.1 == u && e.2.1 == v) with
      | true =>
          rw [List.filter_cons, if_pos hp]
          have hxy : e.1 = u ∧ e.2.1 = v := by simpa using hp
          have hrest : rest.filter (fun e2 => e2.1 == u && e2.2.1 == v) = [] := by
            rw [List.filter_eq_nil_iff]
            intro e2 he2 hpe2
            have h2 : e2.1 = u ∧ e2.2.1 = v := by simpa using hpe2
            apply hnm
            have hpair : (e2.1, e2.2.1) = (e.1, e.2.1) := by
              rw [h2.1, h2.2, hxy.1, hxy.2]
            rw [← hpair]
            exact List.mem_map_of_mem _ he2
          rw [hrest]
          rfl
      | false =>
          rw [List.filter_cons, if_neg (by simp [hp])]
          rw [List.any_cons, hp] at h
          simp only [Bool.false_or] at h
          exact ih hnd h

theorem length_edgeWrite_of_mem (es : List (String × String × Attrs)) (u v : String)
    (a : Attrs) (h : es.any (fun e => e.1 == u && e.2.1 == v) = true) :
    (edgeWrite es u v a).length = es.length := by
  induction es with
  | nil => simp at h
  | cons e rest ih =>
      cases hp : (e.1 == u && e.2.1 == v) with
      | true =>
          rw [edgeWrite, if_pos hp]
          simp
      | false =>
          rw [edgeWrite, if_neg (by simp [hp])]
          rw [List.any_cons, hp] at h
          simp only [Bool.false_or] at h
          simp [ih h]

theorem addEdge_length_of_hasEdge (g : DiGraph) (u v : String) (a : Attrs)
    (h : hasEdge g u v = true) :
    (addEdge g u v a).edges.length = g.edges.length := by
  rw [edges_addEdge]
  exact length_edgeWrite_of_mem g.edges u v a h

/-! ## The connection edges of the merge -/

theorem addConnectionEdges_cons (g : DiGraph) (c : ConnRecord) (rest : List ConnRecord) :
    addConnectionEdges g (c :: rest) =
      addConnectionEdges (addEdge g c.road_node c.station_id (connEdgeAttrs c)) rest := rfl

theorem edgeData_addConnectionEdges_untouched (cs : List ConnRecord) (g : DiGraph)
    (x y : String) (h : ∀ c ∈ cs, ¬(c.road_node = x ∧ c.station_id = y)) :
    edgeData (addConnectionEdges g cs) x y = edgeData g x y := by
  induction cs generalizing g with
  | nil => rfl
  | cons c rest ih =>
      rw [addConnectionEdges_cons]
      rw [ih _ (fun c2 hc2 => h c2 (List.mem_cons_of_mem c hc2))]
      exact edgeData_addEdge_ne g _ _ _ x y (h c (List.mem_cons_self c rest))

theorem hasEdge_addConnectionEdges_untouched (cs : List ConnRecord) (g : DiGraph)
    (x y : String) (h : ∀ c ∈ cs, ¬(c.road_node = x ∧ c.station_id = y)) :
    hasEdge (addConnectionEdges g cs) x y = hasEdge g x y := by
  rw [hasEdge_eq_isSome, hasEdge_eq_isSome, edgeData_addConnectionEdges_untouched cs g x y h]

theorem attrGet_connUpdate_station (a : Attrs) (c : ConnRecord) :
    attrGet (attrUpdate a (connEdgeAttrs c)) "station_name" = some (.s c.station_name) := by
  simp only [connEdgeAttrs, attrUpdate_cons, attrUpdate_nil]
  repeat
    first
    | rw [attrGet_attrSet_self]
    | rw [attrGet_attrSet_ne _ _ _ _ (by decide)]

theorem attrGet_connEdgeAttrs_station (c : ConnRecord) :
    attrGet (connEdgeAttrs c) "station_name" = some (.s c.station_name) := by
  simp [connEdgeAttrs, attrGet, List.find?]

theorem edgeData_addConnectionEdges_mem (cs : List ConnRecord) (g : DiGraph)
    (c : ConnRecord) (hc : c ∈ cs)
    (hnd : (cs.map (fun c2 => (c2.road_node, c2.station_id))).Nodup) :
    ∃ d, edgeData (addConnectionEdges g cs) c.road_node c.station_id = some d ∧
      attrGet d "mode" = some (.s "walk") ∧
      attrGet d "edge_type" = some (.s "car_to_pt_transfer") ∧
      attrGet d "distance" = some (.q c.distance) ∧
      attrGet d "time" = some (.q c.walk_time) ∧
      attrGet d "emissions" = some (.q 0) ∧
      attrGet d "station_name" = some (.s c.station_name) := by
  induction cs generalizing g with
  | nil => cases hc
  | cons c0 rest ih =>
      rw [List.map_cons, List.nodup_cons] at hnd
      obtain ⟨hnm, hnd2⟩ := hnd
      rw [addConnectionEdges_cons]
      rcases List.mem_cons.mp hc with rfl | hc2
      · have hrest : ∀ c2 ∈ rest,
            ¬(c2.road_node = c.road_node ∧ c2.station_id = c.station_id) := by
          intro c2 hc2 hpair
          apply hnm
          have hp2 : (c2.road_node, c2.station_id) = (c.road_node, c.station_id) := by
            rw [hpair.1, hpair.2]
          rw [← hp2]
          exact List.mem_map_of_mem _ hc2
        rw [edgeData_addConnectionEdges_untouched rest _ _ _ hrest]
        rw [edgeData_addEdge_self]
        cases hprev : edgeData g c.road_node c.station_id with
        | none =>
            refine ⟨connEdgeAttrs c, rfl, ?_⟩
            have hf := attrGet_connEdgeAttrs c
            exact ⟨hf.1, hf.2.1, hf.2.2.1, hf.2.2.2.1, hf.2.2.2.2,
              attrGet_connEdgeAttrs_station c⟩
        | some old =>
            refine ⟨attrUpdate old (connEdgeAttrs c), rfl, ?_⟩
            have hf := attrGet_connUpdate old c
            exact ⟨hf.1, hf.2.1, hf.2.2.1, hf.2.2.2.1, hf.2.2.2.2,
              attrGet_connUpdate_station old c⟩
      · exact ih _ hc2 hnd2

/-! ## The car connector's distance bound -/

theorem closestScan_fold_bound (dist : ℚ × ℚ → ℚ × ℚ → ℚ) (maxd : ℚ) (p : ℚ × ℚ)
    (roads : List (String × ℚ × ℚ)) (idxs : List ℕ) (acc : Option (String × ℚ))
    (hacc : ∀ b m, acc = some (b, m) → m ≤ maxd) :
    ∀ b m, (idxs.foldl (fun acc j =>
      let d := dist p (roadCoord roads j)
      match acc with
      | none => if d ≤ maxd then some (roadId roads j, d) else none
      | some (b, m) => if d < m ∧ d ≤ maxd then some (roadId roads j, d) else some (b, m))
      acc) = some (b, m) → m ≤ maxd := by
  induction idxs generalizing acc with
  | nil => exact hacc
  | cons j rest ih =>
      rw [List.foldl_cons]
      apply ih
      intro b m hm
      cases acc with
      | none =>
          dsimp only at hm
          by_cases hd : dist p (roadCoord roads j) ≤ maxd
          · rw [if_pos hd] at hm
            rw [Option.some.injEq, Prod.mk.injEq] at hm
            rw [← hm.2]
            exact hd
          · rw [if_neg hd] at hm
            exact absurd hm (by simp)
      | some pr =>
          obtain ⟨b0, m0⟩ := pr
          dsimp only at hm
          by_cases hd : dist p (roadCoord roads j) < m0 ∧ dist p (roadCoord roads j) ≤ maxd
          · rw [if_pos hd] at hm
            rw [Option.some.injEq, Prod.mk.injEq] at hm
            rw [← hm.2]
            exact hd.2
          · rw [if_neg hd] at hm
            rw [Option.some.injEq, Prod.mk.injEq] at hm
            rw [← hm.2]
            exact hacc b0 m0 rfl

theorem closestScan_bound (dist : ℚ × ℚ → ℚ × ℚ → ℚ) (maxd : ℚ) (p : ℚ × ℚ)
    (roads : List (String × ℚ × ℚ)) (idxs : List ℕ) (b : String) (m : ℚ)
    (h : closestScan dist maxd p roads idxs = some (b, m)) : m ≤ maxd :=
  closestScan_fold_bound dist maxd p roads idxs none (fun b2 m2 hm2 => nomatch hm2) b m h

theorem stationStep_eq (dist : ℚ × ℚ → ℚ × ℚ → ℚ) (maxd γ : ℚ)
    (roads : List (String × ℚ × ℚ)) (st : CarState) (s : Station) :
    stationStep dist maxd γ roads st s =
      (if (carBall roads (s.lat, s.lon) (flatRadiusDeg maxd)).isEmpty
       then { st with too_far := st.too_far + 1 }
       else
         match closestScan dist maxd (s.lat, s.lon) roads
             (carBall roads (s.lat, s.lon) (flatRadiusDeg maxd)) with
         | some (rid, m) =>
             if rid ≠ "" then
               { st with
                 conns := st.conns ++
                   [⟨s.id, s.name, s.lat, s.lon, rid,
                     ((roads.find? (fun rd => rd.1 == rid)).getD ("", 0, 0)).2.1,
                     ((roads.find? (fun rd => rd.1 == rid)).getD ("", 0, 0)).2.2,
                     m, m / γ⟩],
                 connected := st.connected + 1 }
             else { st with too_far := st.too_far + 1 }
         | none => { st with too_far := st.too_far + 1 }) := rfl

theorem find_connections_eq (dist : ℚ × ℚ → ℚ × ℚ → ℚ) (maxd γ : ℚ)
    (stations : List Station) (roads : List (String × ℚ × ℚ)) :
    find_connections dist maxd γ stations roads =
      (if (stations.foldl (stationStep dist maxd γ roads) ⟨[], 0, 0⟩).connected == 0
       then .error "No connections found"
       else .ok (stations.foldl (stationStep dist maxd γ roads) ⟨[], 0, 0⟩).conns) := rfl

theorem find_connections_bound (dist : ℚ × ℚ → ℚ × ℚ → ℚ) (maxd γ : ℚ)
    (stations : List Station) (roads : List (String × ℚ × ℚ)) (recs : List ConnRecord)
    (hok : find_connections dist maxd γ stations roads = .ok recs)
    (c : ConnRecord) (hc : c ∈ recs) : c.distance ≤ maxd := by
  have key : ∀ (sts : List Station) (st : CarState),
      (∀ c2 ∈ st.conns, c2.distance ≤ maxd) →
      ∀ c2 ∈ (sts.foldl (stationStep dist maxd γ roads) st).conns, c2.distance ≤ maxd := by
    intro sts
    induction sts with
    | nil => intro st h; exact h
    | cons s rest ih =>
        intro st h
        rw [List.foldl_cons]
        apply ih
        intro c2 hc2
        rw [stationStep_eq] at hc2
        by_cases hemp : (carBall roads (s.lat, s.lon) (flatRadiusDeg maxd)).isEmpty = true
        · rw [if_pos hemp] at hc2
          exact h c2 hc2
        · rw [if_neg hemp] at hc2
          cases hscan : closestScan dist maxd (s.lat, s.lon) roads
              (carBall roads (s.lat, s.lon) (flatRadiusDeg maxd)) with
          | none =>
              rw [hscan] at hc2
              exact h c2 hc2
          | some pr =>
              obtain ⟨rid, m⟩ := pr
              rw [hscan] at hc2
              dsimp only at hc2
              by_cases hrid : rid ≠ ""
              · rw [if_pos hrid] at hc2
                dsimp only at hc2
                rcases List.mem_append.mp hc2 with h2 | h2
                · exact h c2 h2
                · rw [List.mem_singleton] at h2
                  subst h2
                  exact closestScan_bound dist maxd (s.lat, s.lon) roads
                    (carBall roads (s.lat, s.lon) (flatRadiusDeg maxd)) rid m hscan
              · rw [if_neg hrid] at hc2
                exact h c2 hc2
  rw [find_connections_eq] at hok
  by_cases hz :
      ((stations.foldl (stationStep dist maxd γ roads) ⟨[], 0, 0⟩).connected == 0) = true
  · rw [if_pos hz] at hok
    exact absurd hok (by simp)
  · rw [if_neg hz] at hok
    rw [Except.ok.injEq] at hok
    apply key stations ⟨[], 0, 0⟩
    · intro c2 hc2
      cases hc2
    · rw [hok]
      exact hc

theorem addAtB_budget (dist : ℚ × ℚ → ℚ × ℚ → ℚ) (maxd r : ℚ)
    (ids : List String) (coords : List (ℚ × ℚ)) (H0 : DiGraph) (i j : ℕ)
    (h : addAtB dist maxd r ids coords H0 i j = true) :
    dist (coordAt coords i) (coordAt coords j) ≤ maxd := by
  have hd := (addAtB_ball dist maxd r ids coords H0 i j h).2
  unfold dOKB at hd
  rw [Bool.not_eq_true', decide_eq_false_iff_not] at hd
  exact le_of_not_lt hd

/-! ## The existing-edge check is one-directional -/

theorem addAtB_of_hasEdge (dist : ℚ × ℚ → ℚ × ℚ → ℚ) (maxd r : ℚ)
    (ids : List String) (coords : List (ℚ × ℚ)) (H0 : DiGraph) (i j : ℕ)
    (h : hasEdge H0 (idAt ids i) (idAt ids j) = true) :
    addAtB dist maxd r ids coords H0 i j = false := by
  unfold addAtB addFirstB
  rcases lt_trichotomy i j with hij | hij | hij
  · rw [if_pos hij, h]
    simp
  · subst hij
    rw [if_neg (lt_irrefl i), if_neg (lt_irrefl i)]
  · rw [if_neg (by omega), if_pos hij, h]
    simp

/-! ## The spatial index against the spec's reading -/

theorem filterMap_sublist_of_imp {α β : Type} (f g : α → Option β)
    (h : ∀ x y, f x = some y → g x = some y) (l : List α) :
    List.Sublist (l.filterMap f) (l.filterMap g) := by
  induction l with
  | nil => simp
  | cons a rest ih =>
      rw [List.filterMap_cons, List.filterMap_cons]
      cases hf : f a with
      | none =>
          cases hg : g a with
          | none => exact ih
          | some b => exact List.Sublist.cons b ih
      | some b =>
          rw [h a b hf]
          exact List.Sublist.cons₂ b ih

theorem build_spatial_index_eq (g : DiGraph) :
    build_spatial_index g =
      (if (spatialRows g).isEmpty ||
          (spatialRows g).any (fun r => !r.2.1.isQ || !r.2.2.isQ)
       then .error "ValueError"
       else .ok ((spatialRows g).map (fun r => (r.1, r.2.1.toQ, r.2.2.toQ)))) := rfl

theorem spatialRows_map_sub_spec (g : DiGraph) :
    List.Sublist ((spatialRows g).map (fun r => (r.1, r.2.1.toQ, r.2.2.toQ)))
      (spec_spatial_index g) := by
  unfold spatialRows spec_spatial_index
  rw [List.map_filterMap]
  apply filterMap_sublist_of_imp
  intro nd y hf
  dsimp only at hf ⊢
  cases hla : attrGet nd.2 "lat" with
  | none =>
      cases hlo : attrGet nd.2 "lon" with
      | none => rw [hla, hlo] at hf; exact Option.noConfusion hf
      | some lnv => rw [hla, hlo] at hf; exact Option.noConfusion hf
  | some lv =>
      cases hlo : attrGet nd.2 "lon" with
      | none => rw [hla, hlo] at hf; exact Option.noConfusion hf
      | some lnv =>
          rw [hla, hlo] at hf
          dsimp only at hf ⊢
          by_cases ht : (lv.truthy && lnv.truthy) = true
          · rw [if_pos ht] at hf
            rw [Option.map_some'] at hf
            exact hf
          · rw [if_neg ht] at hf
            exact Option.noConfusion hf

theorem spatialRows_mem (g : DiGraph) (nd : String × Attrs) (hnd : nd ∈ g.nodes)
    (lv lnv : AVal) (hla : attrGet nd.2 "lat" = some lv)
    (hlo : attrGet nd.2 "lon" = some lnv)
    (htv : lv.truthy = true) (htn : lnv.truthy = true) :
    (nd.1, lv, lnv) ∈ spatialRows g := by
  unfold spatialRows
  rw [List.mem_filterMap]
  refine ⟨nd, hnd, ?_⟩
  dsimp only
  rw [hla, hlo]
  dsimp only
  rw [if_pos (by rw [htv, htn]; rfl)]

theorem build_spatial_index_ok (g : DiGraph) (idx : List (String × ℚ × ℚ))
    (hok : build_spatial_index g = .ok idx) :
    idx = (spatialRows g).map (fun r => (r.1, r.2.1.toQ, r.2.2.toQ)) := by
  rw [build_spatial_index_eq] at hok
  by_cases hc : ((spatialRows g).isEmpty ||
      (spatialRows g).any (fun r => !r.2.1.isQ || !r.2.2.isQ)) = true
  · rw [if_pos hc] at hok
    exact absurd hok (by simp)
  · rw [if_neg hc] at hok
    rw [Except.ok.injEq] at hok
    exact hok.symm

/-! ## The pairing survives into the merged graph -/

theorem edges_addNodesFrom (g : DiGraph) (ns : List (String × Attrs)) :
    (addNodesFrom g ns).edges = g.edges := by
  induction ns generalizing g with
  | nil => rfl
  | cons nd rest ih =>
      have hstep : addNodesFrom g (nd :: rest) =
          addNodesFrom (addNodeData g nd.1 nd.2) rest := rfl
      rw [hstep, ih]
      rfl

theorem hasEdge_addNodesFrom (g : DiGraph) (ns : List (String × Attrs)) (x y : String) :
    hasEdge (addNodesFrom g ns) x y = hasEdge g x y := by
  unfold hasEdge
  rw [edges_addNodesFrom]

theorem hasEdge_foldl_mono {α : Type} (f : DiGraph → α → DiGraph) (l : List α)
    (hf : ∀ g z x y, hasEdge g x y = true → hasEdge (f g z) x y = true)
    (g : DiGraph) (x y : String) (h : hasEdge g x y = true) :
    hasEdge (l.foldl f g) x y = true := by
  induction l generalizing g with
  | nil => exact h
  | cons z rest ih => exact ih _ (hf g z x y h)

theorem hasEdge_addEdgesFrom_mono (g : DiGraph) (es : List (String × String × Attrs))
    (x y : String) (h : hasEdge g x y = true) :
    hasEdge (addEdgesFrom g es) x y = true :=
  hasEdge_foldl_mono _ es
    (fun g2 e x2 y2 h2 => hasEdge_mono_addEdge g2 e.1 e.2.1 e.2.2 x2 y2 h2) g x y h

theorem hasEdge_addEdgesFrom_mem (g : DiGraph) (es : List (String × String × Attrs))
    (u v : String) (a : Attrs) (hmem : (u, v, a) ∈ es) :
    hasEdge (addEdgesFrom g es) u v = true := by
  induction es generalizing g with
  | nil => cases hmem
  | cons e rest ih =>
      have hstep : addEdgesFrom g (e :: rest) =
          addEdgesFrom (addEdge g e.1 e.2.1 e.2.2) rest := rfl
      rw [hstep]
      rcases List.mem_cons.mp hmem with heq | hmem2
      · apply hasEdge_addEdgesFrom_mono
        rw [← heq]
        dsimp only
        rw [hasEdge_addEdge]
        simp
      · exact ih _ hmem2

theorem hasEdge_backfillTransport_mono (g : DiGraph) (x y : String)
    (h : hasEdge g x y = true) : hasEdge (backfillTransport g) x y = true := by
  unfold backfillTransport
  refine hasEdge_foldl_mono _ g.edges ?_ g x y h
  intro g2 e x2 y2 h2
  dsimp only
  split
  · exact hasEdge_mono_addEdge _ _ _ _ _ _ h2
  · exact h2

theorem hasEdge_addConnectionEdges_mono (g : DiGraph) (cs : List ConnRecord)
    (x y : String) (h : hasEdge g x y = true) :
    hasEdge (addConnectionEdges g cs) x y = true :=
  hasEdge_foldl_mono _ cs
    (fun g2 c x2 y2 h2 => hasEdge_mono_addEdge g2 _ _ _ x2 y2 h2) g x y h

theorem hasEdge_combined_of_backfillWalk (gpt gcar : DiGraph) (cs : List ConnRecord)
    (x y : String)
    (h : hasEdge (backfillWalk gpt
        (addEdgesFrom (addNodesFrom DiGraph.empty gpt.nodes) gpt.edges)) x y = true) :
    hasEdge (create_combined_graph gpt gcar cs) x y = true := by
  have h3 := hasEdge_backfillTransport_mono _ x y h
  have h4 : hasEdge (addNodesFrom (backfillTransport (backfillWalk gpt
      (addEdgesFrom (addNodesFrom DiGraph.empty gpt.nodes) gpt.edges)))
      gcar.nodes) x y = true := by
    rw [hasEdge_addNodesFrom]
    exact h3
  have h5 := hasEdge_addEdgesFrom_mono _ gcar.edges x y h4
  exact hasEdge_addConnectionEdges_mono _ cs x y h5

theorem combined_walk_pair (gpt gcar : DiGraph) (cs : List ConnRecord)
    (u v : String) (a : Attrs) (hmem : (u, v, a) ∈ gpt.edges) (hw : isWalkPt a = true) :
    hasEdge (create_combined_graph gpt gcar cs) u v = true ∧
    hasEdge (create_combined_graph gpt gcar cs) v u = true :=
  ⟨hasEdge_combined_of_backfillWalk gpt gcar cs u v
    (hasEdge_backfill_fold gpt.edges _ u v
      (hasEdge_addEdgesFrom_mem _ gpt.edges u v a hmem)),
   hasEdge_combined_of_backfillWalk gpt gcar cs v u
    (backfillWalk_reverse gpt _ u v a hmem hw)⟩

/-! # Claim theorems -/

/-- Claim C5 (amended): running the PT-to-PT walking connector twice in
succession yields the same directed edge set (as ordered node pairs) and
exactly the same returned stats as running it once, because every
`walk`/`pt_transfer` edge is cleared before regeneration.  The amendment:
the edge ATTRIBUTE dictionaries need not coincide — an edge that pre-existed
with another mode and was overwritten by the first run keeps merged leftover
attributes that the second run drops (see the counterexample). -/
theorem C5_run_twice (dist : ℚ × ℚ → ℚ × ℚ → ℚ) (cosdeg : ℚ → ℚ) (maxd γ : ℚ)
    (g0 : DiGraph) (hwf : GraphWF g0) :
    (∀ x y, hasEdge (add_walking_edges dist cosdeg maxd γ
        (add_walking_edges dist cosdeg maxd γ g0).1).1 x y =
      hasEdge (add_walking_edges dist cosdeg maxd γ g0).1 x y) ∧
    (add_walking_edges dist cosdeg maxd γ (add_walking_edges dist cosdeg maxd γ g0).1).2 =
      (add_walking_edges dist cosdeg maxd γ g0).2 := by
  by_cases hne : (extract_pt_nodes (clearWalkEdges g0)).isEmpty = true
  · rw [add_walking_edges_empty dist cosdeg maxd γ g0 hne]
    have hex : extract_pt_nodes (clearWalkEdges (clearWalkEdges g0)) =
        extract_pt_nodes (clearWalkEdges g0) := extract_congr _ _ rfl
    have hne2 : (extract_pt_nodes (clearWalkEdges (clearWalkEdges g0))).isEmpty = true := by
      rw [hex]; exact hne
    rw [add_walking_edges_empty dist cosdeg maxd γ (clearWalkEdges g0) hne2]
    refine ⟨?_, rfl⟩
    intro x y
    have hwfc : GraphWF (clearWalkEdges g0) := GraphWF_clearWalkEdges g0 hwf
    rw [hasEdge_clearWalkEdges (clearWalkEdges g0) hwfc.2 x y]
    rw [walkPtEdge_clearWalkEdges g0 hwf.2 x y]
    simp
  · have hneF : (extract_pt_nodes (clearWalkEdges g0)).isEmpty = false := by
      cases hh : (extract_pt_nodes (clearWalkEdges g0)).isEmpty
      · rfl
      · exact absurd hh hne
    rw [add_walking_edges_run dist cosdeg maxd γ g0 hneF]
    obtain ⟨hinv, -, -, -⟩ := runFinalState_char dist cosdeg maxd γ
      (ptIds (clearWalkEdges g0)) (ptCoords (clearWalkEdges g0)) (clearWalkEdges g0)
      (run_hyp g0 hwf)
    have hex2 : extract_pt_nodes (clearWalkEdges (runFinalState dist cosdeg maxd γ
          (clearWalkEdges g0) (ptIds (clearWalkEdges g0))
          (ptCoords (clearWalkEdges g0))).g) =
        extract_pt_nodes (clearWalkEdges g0) := by
      apply extract_congr
      exact hinv.nodesEq
    have hne2 : (extract_pt_nodes (clearWalkEdges (runFinalState dist cosdeg maxd γ
        (clearWalkEdges g0) (ptIds (clearWalkEdges g0))
        (ptCoords (clearWalkEdges g0))).g)).isEmpty = false := by
      rw [hex2]; exact hneF
    rw [add_walking_edges_run dist cosdeg maxd γ _ hne2]
    have hids2 : ptIds (clearWalkEdges (runFinalState dist cosdeg maxd γ
        (clearWalkEdges g0) (ptIds (clearWalkEdges g0))
        (ptCoords (clearWalkEdges g0))).g) = ptIds (clearWalkEdges g0) :=
      ptIds_congr _ _ hex2
    have hcoords2 : ptCoords (clearWalkEdges (runFinalState dist cosdeg maxd γ
        (clearWalkEdges g0) (ptIds (clearWalkEdges g0))
        (ptCoords (clearWalkEdges g0))).g) = ptCoords (clearWalkEdges g0) :=
      ptCoords_congr _ _ hex2
    rw [hids2, hcoords2]
    obtain ⟨hhas, hpairs, hskip, htf, hnc, hedges⟩ :=
      run_twice_core dist cosdeg maxd γ g0 hwf
    refine ⟨fun x y => hhas x y, ?_⟩
    rw [hedges, hnc, hskip, htf, hpairs]

unseal Rat.add Rat.mul Rat.sub Rat.inv in
theorem C5_witness :
    hasEdge (add_walking_edges distTaxicab cosOne 300 (7/5)
        (add_walking_edges distTaxicab cosOne 300 (7/5) Gtrain).1).1 "A" "B" =
      hasEdge (add_walking_edges distTaxicab cosOne 300 (7/5) Gtrain).1 "A" "B" ∧
    (add_walking_edges distTaxicab cosOne 300 (7/5)
        (add_walking_edges distTaxicab cosOne 300 (7/5) Gtrain).1).2 =
      (add_walking_edges distTaxicab cosOne 300 (7/5) Gtrain).2 :=
  ⟨(C5_run_twice distTaxicab cosOne 300 (7/5) Gtrain (by decide)).1 "A" "B",
   (C5_run_twice distTaxicab cosOne 300 (7/5) Gtrain (by decide)).2⟩

unseal Rat.add Rat.mul Rat.sub Rat.inv in
theorem C5_counterexample :
    edgeGet (add_walking_edges distTaxicab cosOne 300 (7/5) Gtrain).1
        "A" "B" "route_type" = some (.q 2) ∧
    edgeGet (add_walking_edges distTaxicab cosOne 300 (7/5)
        (add_walking_edges distTaxicab cosOne 300 (7/5) Gtrain).1).1
        "A" "B" "route_type" = none := by
  decide

/-- Claim C1: every `walk`/`pt_transfer` edge inserted by the PT-to-PT
connector comes together with the reverse directed edge, and both carry the
same distance, time = distance / walking_speed and emissions = 0; and the
pairing also holds in the merged graph: for every `walk`/`pt_transfer` edge
of the PT graph, `create_combined_graph` contains both directions, the
reverse coming from the merge's backfill pass when missing. -/
theorem C1_bidirectional_walking_edges (dist : ℚ × ℚ → ℚ × ℚ → ℚ) (cosdeg : ℚ → ℚ)
    (maxd γ : ℚ) (g0 : DiGraph) (hwf : GraphWF g0)
    (ids : List String) (coords : List (ℚ × ℚ)) (r : ℚ)
    (hids : ids = ptIds (clearWalkEdges g0))
    (hcoords : coords = ptCoords (clearWalkEdges g0))
    (hr : r = searchRadiusDeg cosdeg maxd coords)
    (i j : ℕ) (hW : WAll dist maxd r ids coords (clearWalkEdges g0) i j) :
    WalkValues (add_walking_edges dist cosdeg maxd γ g0).1 (idAt ids i) (idAt ids j) γ
      (dist (coordAt coords i) (coordAt coords j)) ∧
    WalkValues (add_walking_edges dist cosdeg maxd γ g0).1 (idAt ids j) (idAt ids i) γ
      (dist (coordAt coords i) (coordAt coords j)) ∧
    (∀ (gpt gcar : DiGraph) (cs : List ConnRecord) (u v : String) (a : Attrs),
      (u, v, a) ∈ gpt.edges → isWalkPt a = true →
      hasEdge (create_combined_graph gpt gcar cs) u v = true ∧
      hasEdge (create_combined_graph gpt gcar cs) v u = true) := by
  subst hids hcoords hr
  obtain ⟨hadd, hlen⟩ := hW
  have hne : (extract_pt_nodes (clearWalkEdges g0)).isEmpty = false := by
    cases hext : extract_pt_nodes (clearWalkEdges g0) with
    | nil =>
        unfold ptIds at hlen
        rw [hext] at hlen
        simp at hlen
    | cons p rest => rfl
  rw [add_walking_edges_run dist cosdeg maxd γ g0 hne]
  obtain ⟨hinv, -, -, -⟩ := runFinalState_char dist cosdeg maxd γ
    (ptIds (clearWalkEdges g0)) (ptCoords (clearWalkEdges g0)) (clearWalkEdges g0)
    (run_hyp g0 hwf)
  have hpair := hinv.dataAdded i j ⟨hadd, hlen⟩
  exact ⟨hpair.1, hpair.2,
    fun gpt gcar cs u v a hm hw => combined_walk_pair gpt gcar cs u v a hm hw⟩

unseal Rat.add Rat.mul Rat.sub Rat.inv in
theorem C1_witness :
    WalkValues (add_walking_edges distTaxicab cosOne 300 (7/5) GptPair).1
      (idAt (ptIds (clearWalkEdges GptPair)) 0) (idAt (ptIds (clearWalkEdges GptPair)) 1)
      (7/5)
      (distTaxicab (coordAt (ptCoords (clearWalkEdges GptPair)) 0)
        (coordAt (ptCoords (clearWalkEdges GptPair)) 1)) ∧
    WalkValues (add_walking_edges distTaxicab cosOne 300 (7/5) GptPair).1
      (idAt (ptIds (clearWalkEdges GptPair)) 1) (idAt (ptIds (clearWalkEdges GptPair)) 0)
      (7/5)
      (distTaxicab (coordAt (ptCoords (clearWalkEdges GptPair)) 0)
        (coordAt (ptCoords (clearWalkEdges GptPair)) 1)) ∧
    (hasEdge (create_combined_graph GnoCoords GcarSolo []) "A" "B" = true ∧
     hasEdge (create_combined_graph GnoCoords GcarSolo []) "B" "A" = true) := by
  have h := C1_bidirectional_walking_edges distTaxicab cosOne 300 (7/5) GptPair (by decide)
    (ptIds (clearWalkEdges GptPair)) (ptCoords (clearWalkEdges GptPair))
    (searchRadiusDeg cosOne 300 (ptCoords (clearWalkEdges GptPair))) rfl rfl rfl 0 1
    ⟨by decide, by decide⟩
  exact ⟨h.1, h.2.1, h.2.2 GnoCoords GcarSolo [] "A" "B"
    [("mode", .s "walk"), ("edge_type", .s "pt_transfer")] (by decide) (by decide)⟩

/-- Claim C3 (amended): the existing-edge check of `add_connections` tests
only the `node_id → neighbor_id` direction of each visit, so only a pair
with pre-existing edges in BOTH directions is never connected, and only then
is its edge data left untouched.  A pair with a pre-existing edge in a
single direction is skipped on one visit but connected on the reverse visit,
which also updates the pre-existing edge in place (see the counterexample). -/
theorem C3_one_directional_existing_check (dist : ℚ × ℚ → ℚ × ℚ → ℚ) (cosdeg : ℚ → ℚ)
    (maxd γ : ℚ) (g0 : DiGraph) (hwf : GraphWF g0)
    (ids : List String) (coords : List (ℚ × ℚ)) (r : ℚ)
    (hids : ids = ptIds (clearWalkEdges g0))
    (hcoords : coords = ptCoords (clearWalkEdges g0))
    (hr : r = searchRadiusDeg cosdeg maxd coords)
    (i j : ℕ) (hi : i < ids.length) (hj : j < ids.length)
    (hij : hasEdge (clearWalkEdges g0) (idAt ids i) (idAt ids j) = true)
    (hji : hasEdge (clearWalkEdges g0) (idAt ids j) (idAt ids i) = true) :
    addAtB dist maxd r ids coords (clearWalkEdges g0) i j = false ∧
    addAtB dist maxd r ids coords (clearWalkEdges g0) j i = false ∧
    edgeData (add_walking_edges dist cosdeg maxd γ g0).1 (idAt ids i) (idAt ids j) =
      edgeData (clearWalkEdges g0) (idAt ids i) (idAt ids j) ∧
    edgeData (add_walking_edges dist cosdeg maxd γ g0).1 (idAt ids j) (idAt ids i) =
      edgeData (clearWalkEdges g0) (idAt ids j) (idAt ids i) := by
  subst hids hcoords hr
  have ha1 := addAtB_of_hasEdge dist maxd
    (searchRadiusDeg cosdeg maxd (ptCoords (clearWalkEdges g0)))
    (ptIds (clearWalkEdges g0)) (ptCoords (clearWalkEdges g0)) (clearWalkEdges g0) i j hij
  have ha2 := addAtB_of_hasEdge dist maxd
    (searchRadiusDeg cosdeg maxd (ptCoords (clearWalkEdges g0)))
    (ptIds (clearWalkEdges g0)) (ptCoords (clearWalkEdges g0)) (clearWalkEdges g0) j i hji
  have hne : (extract_pt_nodes (clearWalkEdges g0)).isEmpty = false := by
    cases hext : extract_pt_nodes (clearWalkEdges g0) with
    | nil =>
        unfold ptIds at hi
        rw [hext] at hi
        simp at hi
    | cons p rest => rfl
  obtain ⟨hinv, -, -, -⟩ := runFinalState_char dist cosdeg maxd γ
    (ptIds (clearWalkEdges g0)) (ptCoords (clearWalkEdges g0)) (clearWalkEdges g0)
    (run_hyp g0 hwf)
  have hnodup := (run_hyp g0 hwf).nodup
  have hkey : ∀ x y : String,
      ((x = idAt (ptIds (clearWalkEdges g0)) i ∧ y = idAt (ptIds (clearWalkEdges g0)) j) ∨
       (x = idAt (ptIds (clearWalkEdges g0)) j ∧ y = idAt (ptIds (clearWalkEdges g0)) i)) →
      ¬ DirMatch (ptIds (clearWalkEdges g0))
        (WAll dist maxd (searchRadiusDeg cosdeg maxd (ptCoords (clearWalkEdges g0)))
          (ptIds (clearWalkEdges g0)) (ptCoords (clearWalkEdges g0)) (clearWalkEdges g0))
        x y := by
    rintro x y hxy ⟨i2, j2, hi2, hj2, ⟨hadd2, -⟩, hm⟩
    rcases hxy with ⟨hx, hy⟩ | ⟨hx, hy⟩ <;> rcases hm with ⟨hx2, hy2⟩ | ⟨hx2, hy2⟩
    · have e1 : i2 = i := idAt_inj _ hnodup i2 i hi2 hi (by rw [← hx2, hx])
      have e2 : j2 = j := idAt_inj _ hnodup j2 j hj2 hj (by rw [← hy2, hy])
      rw [e1, e2, ha1] at hadd2
      exact Bool.false_ne_true hadd2
    · have e1 : j2 = i := idAt_inj _ hnodup j2 i hj2 hi (by rw [← hx2, hx])
      have e2 : i2 = j := idAt_inj _ hnodup i2 j hi2 hj (by rw [← hy2, hy])
      rw [e1, e2, ha2] at hadd2
      exact Bool.false_ne_true hadd2
    · have e1 : i2 = j := idAt_inj _ hnodup i2 j hi2 hj (by rw [← hx2, hx])
      have e2 : j2 = i := idAt_inj _ hnodup j2 i hj2 hi (by rw [← hy2, hy])
      rw [e1, e2, ha2] at hadd2
      exact Bool.false_ne_true hadd2
    · have e1 : j2 = j := idAt_inj _ hnodup j2 j hj2 hj (by rw [← hx2, hx])
      have e2 : i2 = i := idAt_inj _ hnodup i2 i hi2 hi (by rw [← hy2, hy])
      rw [e2, e1, ha1] at hadd2
      exact Bool.false_ne_true hadd2
  refine ⟨ha1, ha2, ?_, ?_⟩
  · rw [add_walking_edges_run dist cosdeg maxd γ g0 hne]
    exact hinv.dataOld _ _ (hkey _ _ (Or.inl ⟨rfl, rfl⟩))
  · rw [add_walking_edges_run dist cosdeg maxd γ g0 hne]
    exact hinv.dataOld _ _ (hkey _ _ (Or.inr ⟨rfl, rfl⟩))

unseal Rat.add Rat.mul Rat.sub Rat.inv in
theorem C3_witness :
    addAtB distTaxicab 300
        (searchRadiusDeg cosOne 300 (ptCoords (clearWalkEdges GtrainBoth)))
        (ptIds (clearWalkEdges GtrainBoth)) (ptCoords (clearWalkEdges GtrainBoth))
        (clearWalkEdges GtrainBoth) 0 1 = false ∧
    addAtB distTaxicab 300
        (searchRadiusDeg cosOne 300 (ptCoords (clearWalkEdges GtrainBoth)))
        (ptIds (clearWalkEdges GtrainBoth)) (ptCoords (clearWalkEdges GtrainBoth))
        (clearWalkEdges GtrainBoth) 1 0 = false ∧
    edgeData (add_walking_edges distTaxicab cosOne 300 (7/5) GtrainBoth).1
        (idAt (ptIds (clearWalkEdges GtrainBoth)) 0)
        (idAt (ptIds (clearWalkEdges GtrainBoth)) 1) =
      edgeData (clearWalkEdges GtrainBoth)
        (idAt (ptIds (clearWalkEdges GtrainBoth)) 0)
        (idAt (ptIds (clearWalkEdges GtrainBoth)) 1) ∧
    edgeData (add_walking_edges distTaxicab cosOne 300 (7/5) GtrainBoth).1
        (idAt (ptIds (clearWalkEdges GtrainBoth)) 1)
        (idAt (ptIds (clearWalkEdges GtrainBoth)) 0) =
      edgeData (clearWalkEdges GtrainBoth)
        (idAt (ptIds (clearWalkEdges GtrainBoth)) 1)
        (idAt (ptIds (clearWalkEdges GtrainBoth)) 0) :=
  C3_one_directional_existing_check distTaxicab cosOne 300 (7/5) GtrainBoth (by decide)
    (ptIds (clearWalkEdges GtrainBoth)) (ptCoords (clearWalkEdges GtrainBoth))
    (searchRadiusDeg cosOne 300 (ptCoords (clearWalkEdges GtrainBoth))) rfl rfl rfl 0 1
    (by decide) (by decide) (by decide) (by decide)

unseal Rat.add Rat.mul Rat.sub Rat.inv in
theorem C3_counterexample :
    hasEdge Gtrain "A" "B" = true ∧
    distTaxicab (0, 0) (0, 1/1000) ≤ 300 ∧
    (add_walking_edges distTaxicab cosOne 300 (7/5) Gtrain).2 = .ok ⟨2, 1, 2, 1, 0⟩ ∧
    edgeGet (add_walking_edges distTaxicab cosOne 300 (7/5) Gtrain).1 "B" "A" "mode" =
      some (.s "walk") ∧
    edgeData (add_walking_edges distTaxicab cosOne 300 (7/5) Gtrain).1 "A" "B" ≠
      edgeData Gtrain "A" "B" := by
  decide

/-- Claim C4 (code bug): in the spec's scenario — road nodes R1 at (0, 0)
and R2 at (0, 0.01), station S1 at (0, 0.0005), budget 300 m — the source's
`if lat and lon:` truthiness filter of `build_spatial_index` drops every
road node whose latitude is 0.  Zero nodes survive the filter, so the
`KDTree(np.array([]))` construction inside `build_spatial_index` itself
raises `ValueError` (`car_to_pt.py` line 72); `find_connections` is never
reached and no ConnectionRecord is produced, instead of R1 being selected. -/
theorem C4_truthiness_drops_zero_coordinates :
    spatialRows GcarScenario = [] ∧
    build_spatial_index GcarScenario = .error "ValueError" :=
  ⟨rfl, rfl⟩

/-- Claim C6: for every connection record handed to the merge (with
pairwise-distinct road/station pairs), the combined graph holds exactly one
directed edge `road_node → station_id`, carrying mode `walk`, edge type
`car_to_pt_transfer`, the stored distance and walk time, emissions 0 and the
station name; and the connection pass synthesizes no reverse edge — the
reverse exists exactly when the rest of the merge already created it. -/
theorem C6_one_way_connection_edges (gpt gcar : DiGraph) (conns : List ConnRecord)
    (c : ConnRecord) (hc : c ∈ conns)
    (hnd : (conns.map (fun c2 => (c2.road_node, c2.station_id))).Nodup)
    (hrev : ∀ c2 ∈ conns, ¬(c2.road_node = c.station_id ∧ c2.station_id = c.road_node)) :
    edgeGet (create_combined_graph gpt gcar conns) c.road_node c.station_id "mode" =
      some (.s "walk") ∧
    edgeGet (create_combined_graph gpt gcar conns) c.road_node c.station_id "edge_type" =
      some (.s "car_to_pt_transfer") ∧
    edgeGet (create_combined_graph gpt gcar conns) c.road_node c.station_id "distance" =
      some (.q c.distance) ∧
    edgeGet (create_combined_graph gpt gcar conns) c.road_node c.station_id "time" =
      some (.q c.walk_time) ∧
    edgeGet (create_combined_graph gpt gcar conns) c.road_node c.station_id "emissions" =
      some (.q 0) ∧
    edgeGet (create_combined_graph gpt gcar conns) c.road_node c.station_id
      "station_name" = some (.s c.station_name) ∧
    ((create_combined_graph gpt gcar conns).edges.filter
        (fun e => e.1 == c.road_node && e.2.1 == c.station_id)).length = 1 ∧
    hasEdge (create_combined_graph gpt gcar conns) c.station_id c.road_node =
      hasEdge (create_combined_graph gpt gcar []) c.station_id c.road_node := by
  have hwf : GraphWF (create_combined_graph gpt gcar conns) := GraphWF_combined gpt gcar conns
  have hsplit : create_combined_graph gpt gcar conns =
      addConnectionEdges (create_combined_graph gpt gcar []) conns := rfl
  obtain ⟨d, hd, h1, h2, h3, h4, h5, h6⟩ :=
    edgeData_addConnectionEdges_mem conns (create_combined_graph gpt gcar []) c hc hnd
  rw [hsplit] at hwf ⊢
  have hhas : hasEdge (addConnectionEdges (create_combined_graph gpt gcar []) conns)
      c.road_node c.station_id = true := by
    rw [hasEdge_eq_isSome, hd]
    rfl
  refine ⟨?_, ?_, ?_, ?_, ?_, ?_, ?_, ?_⟩
  · unfold edgeGet
    rw [hd]
    exact h1
  · unfold edgeGet
    rw [hd]
    exact h2
  · unfold edgeGet
    rw [hd]
    exact h3
  · unfold edgeGet
    rw [hd]
    exact h4
  · unfold edgeGet
    rw [hd]
    exact h5
  · unfold edgeGet
    rw [hd]
    exact h6
  · exact count_pair_one _ hwf.2 _ _ hhas
  · exact hasEdge_addConnectionEdges_untouched conns _ c.station_id c.road_node hrev

unseal Rat.add Rat.mul Rat.sub Rat.inv in
theorem C6_witness :
    edgeGet (create_combined_graph GptPair GcarSolo [connSolo]) "road_9" "X" "mode" =
      some (.s "walk") ∧
    edgeGet (create_combined_graph GptPair GcarSolo [connSolo]) "road_9" "X" "edge_type" =
      some (.s "car_to_pt_transfer") ∧
    edgeGet (create_combined_graph GptPair GcarSolo [connSolo]) "road_9" "X" "distance" =
      some (.q 42) ∧
    edgeGet (create_combined_graph GptPair GcarSolo [connSolo]) "road_9" "X" "time" =
      some (.q 30) ∧
    edgeGet (create_combined_graph GptPair GcarSolo [connSolo]) "road_9" "X" "emissions" =
      some (.q 0) ∧
    edgeGet (create_combined_graph GptPair GcarSolo [connSolo]) "road_9" "X"
      "station_name" = some (.s "Stop X") ∧
    ((create_combined_graph GptPair GcarSolo [connSolo]).edges.filter
        (fun e => e.1 == "road_9" && e.2.1 == "X")).length = 1 ∧
    hasEdge (create_combined_graph GptPair GcarSolo [connSolo]) "X" "road_9" =
      hasEdge (create_combined_graph GptPair GcarSolo []) "X" "road_9" :=
  C6_one_way_connection_edges GptPair GcarSolo [connSolo] connSolo (by decide)
    (by decide) (by decide)

/-- Claim C7 (amended): with zero coordinate-bearing nodes the connector
returns the structured `no_pt_nodes` condition without raising and adds no
edge, and the node set is untouched; the amendment: the graph is NOT left
completely unmutated, because the clearing of old `walk`/`pt_transfer`
edges happens BEFORE the check, so any such pre-existing edges are already
gone (see the counterexample). -/
theorem C7_no_pt_nodes_clears_first (dist : ℚ × ℚ → ℚ × ℚ → ℚ) (cosdeg : ℚ → ℚ)
    (maxd γ : ℚ) (g0 : DiGraph)
    (he : (extract_pt_nodes g0).isEmpty = true) :
    add_walking_edges dist cosdeg maxd γ g0 = (clearWalkEdges g0, .err "no_pt_nodes") ∧
    (clearWalkEdges g0).nodes = g0.nodes := by
  have he2 : (extract_pt_nodes (clearWalkEdges g0)).isEmpty = true := by
    rw [extract_congr (clearWalkEdges g0) g0 rfl]
    exact he
  exact ⟨add_walking_edges_empty dist cosdeg maxd γ g0 he2, rfl⟩

unseal Rat.add Rat.mul Rat.sub Rat.inv in
theorem C7_witness :
    add_walking_edges distTaxicab cosOne 300 (7/5) GnoCoords =
      (clearWalkEdges GnoCoords, .err "no_pt_nodes") ∧
    (clearWalkEdges GnoCoords).nodes = GnoCoords.nodes :=
  C7_no_pt_nodes_clears_first distTaxicab cosOne 300 (7/5) GnoCoords (by decide)

unseal Rat.add Rat.mul Rat.sub Rat.inv in
theorem C7_counterexample :
    (add_walking_edges distTaxicab cosOne 300 (7/5) GnoCoords).2 = .err "no_pt_nodes" ∧
    (add_walking_edges distTaxicab cosOne 300 (7/5) GnoCoords).1.edges = [] ∧
    GnoCoords.edges ≠ [] := by
  decide

/-- Claim C8 (amended): the combined graph is NOT a multigraph — it is built
as a `networkx.DiGraph`, which keeps at most one directed edge per ordered
node pair (its edge-pair list stays duplicate-free), and inserting an edge
over an existing ordered pair UPDATES that edge's attribute dictionary in
place instead of adding a parallel edge (see the counterexample). -/
theorem C8_simple_digraph_no_parallel (gpt gcar : DiGraph) (conns : List ConnRecord) :
    GraphWF (create_combined_graph gpt gcar conns) ∧
    ∀ (g : DiGraph) (u v : String) (a : Attrs), hasEdge g u v = true →
      (addEdge g u v a).edges.length = g.edges.length ∧
      edgeData (addEdge g u v a) u v =
        some (match edgeData g u v with
              | some old => attrUpdate old a
              | none => a) :=
  ⟨GraphWF_combined gpt gcar conns, fun g u v a h =>
    ⟨addEdge_length_of_hasEdge g u v a h, edgeData_addEdge_self g u v a⟩⟩

unseal Rat.add Rat.mul Rat.sub Rat.inv in
theorem C8_witness :
    GraphWF (create_combined_graph GptEmpty GcarParallel [connParallel]) ∧
    (addEdge GcarParallel "road_1" "S1" (connEdgeAttrs connParallel)).edges.length =
      GcarParallel.edges.length ∧
    edgeData (addEdge GcarParallel "road_1" "S1" (connEdgeAttrs connParallel))
        "road_1" "S1" =
      some (match edgeData GcarParallel "road_1" "S1" with
            | some old => attrUpdate old (connEdgeAttrs connParallel)
            | none => connEdgeAttrs connParallel) :=
  ⟨(C8_simple_digraph_no_parallel GptEmpty GcarParallel [connParallel]).1,
   (C8_simple_digraph_no_parallel GptEmpty GcarParallel [connParallel]).2 GcarParallel
     "road_1" "S1" (connEdgeAttrs connParallel) (by decide)⟩

unseal Rat.add Rat.mul Rat.sub Rat.inv in
theorem C8_counterexample :
    hasEdge GcarParallel "road_1" "S1" = true ∧
    (create_combined_graph GptEmpty GcarParallel [connParallel]).edges.length = 1 ∧
    edgeGet (create_combined_graph GptEmpty GcarParallel [connParallel])
        "road_1" "S1" "mode" = some (.s "walk") ∧
    edgeGet (create_combined_graph GptEmpty GcarParallel [connParallel])
        "road_1" "S1" "edge_type" = some (.s "car_to_pt_transfer") := by
  decide

/-- Claim C9: every connection record emitted by the Car-to-PT connector and
every insertion visit performed by the PT-to-PT connector respects the
configured walking-distance budget: the record's distance, respectively the
exact distance of the inserted pair, is at most MAX_WALKING_DISTANCE_M. -/
theorem C9_distance_budget :
    (∀ (dist : ℚ × ℚ → ℚ × ℚ → ℚ) (γ : ℚ) (stations : List Station)
        (roads : List (String × ℚ × ℚ)) (recs : List ConnRecord) (c : ConnRecord),
      find_connections dist MAX_WALKING_DISTANCE_M γ stations roads = .ok recs →
      c ∈ recs → c.distance ≤ MAX_WALKING_DISTANCE_M) ∧
    (∀ (dist : ℚ × ℚ → ℚ × ℚ → ℚ) (r : ℚ) (ids : List String)
        (coords : List (ℚ × ℚ)) (H0 : DiGraph) (i j : ℕ),
      addAtB dist MAX_WALKING_DISTANCE_M r ids coords H0 i j = true →
      dist (coordAt coords i) (coordAt coords j) ≤ MAX_WALKING_DISTANCE_M) :=
  ⟨fun dist γ stations roads recs c hok hc =>
    find_connections_bound dist MAX_WALKING_DISTANCE_M γ stations roads recs hok c hc,
   fun dist r ids coords H0 i j h =>
    addAtB_budget dist MAX_WALKING_DISTANCE_M r ids coords H0 i j h⟩

unseal Rat.add Rat.mul Rat.sub Rat.inv in
theorem C9_witness :
    (⟨"S1", "Station One", 1, 1, "road_1", 1, 1, 0, 0⟩ : ConnRecord).distance ≤
      MAX_WALKING_DISTANCE_M ∧
    distTaxicab (coordAt (ptCoords (clearWalkEdges GptPair)) 0)
        (coordAt (ptCoords (clearWalkEdges GptPair)) 1) ≤ MAX_WALKING_DISTANCE_M :=
  ⟨C9_distance_budget.1 distTaxicab (7/5) [stationNear] [("road_1", 1, 1), ("S1", 1, 1)]
     [⟨"S1", "Station One", 1, 1, "road_1", 1, 1, 0, 0⟩]
     ⟨"S1", "Station One", 1, 1, "road_1", 1, 1, 0, 0⟩ (by rfl) (by decide),
   C9_distance_budget.2 distTaxicab
     (searchRadiusDeg cosOne MAX_WALKING_DISTANCE_M (ptCoords (clearWalkEdges GptPair)))
     (ptIds (clearWalkEdges GptPair)) (ptCoords (clearWalkEdges GptPair))
     (clearWalkEdges GptPair) 0 1 (by decide)⟩

/-- Claim C10 (amended): the spatial-index build filters by Python
truthiness, not by coordinate validity, and it CAN raise.  When the build
succeeds, the index is a sublist of the spec's key-presence index, and every
node whose `lat`/`lon` keys are present with truthy values is indexed.  But
a node with the valid coordinate value 0 (or 0.0, or "") is silently
dropped; and when zero nodes survive the filter — or a surviving coordinate
value is non-numeric — the `KDTree(np.array(...))` construction raises
`ValueError` instead of yielding an index (see the counterexample). -/
theorem C10_spatial_index_truthiness (g : DiGraph) :
    (∀ idx, build_spatial_index g = .ok idx →
      List.Sublist idx (spec_spatial_index g)) ∧
    (∀ idx, build_spatial_index g = .ok idx →
      ∀ nd : String × Attrs, nd ∈ g.nodes → ∀ lv lnv : AVal,
        attrGet nd.2 "lat" = some lv → attrGet nd.2 "lon" = some lnv →
        lv.truthy = true → lnv.truthy = true →
        (nd.1, lv.toQ, lnv.toQ) ∈ idx) ∧
    (spatialRows g = [] → build_spatial_index g = .error "ValueError") ∧
    (∀ r ∈ spatialRows g, (r.2.1.isQ && r.2.2.isQ) = false →
      build_spatial_index g = .error "ValueError") := by
  refine ⟨?_, ?_, ?_, ?_⟩
  · intro idx hok
    rw [build_spatial_index_ok g idx hok]
    exact spatialRows_map_sub_spec g
  · intro idx hok nd hnd lv lnv hla hlo htv htn
    rw [build_spatial_index_ok g idx hok]
    exact List.mem_map_of_mem _ (spatialRows_mem g nd hnd lv lnv hla hlo htv htn)
  · intro hrows
    rw [build_spatial_index_eq, hrows]
    rfl
  · intro r hr hnq
    rw [build_spatial_index_eq]
    have hany : (spatialRows g).any (fun r2 => !r2.2.1.isQ || !r2.2.2.isQ) = true := by
      rw [List.any_eq_true]
      refine ⟨r, hr, ?_⟩
      have hdm : (!r.2.1.isQ || !r.2.2.isQ) = !(r.2.1.isQ && r.2.2.isQ) := by
        cases r.2.1.isQ <;> cases r.2.2.isQ <;> rfl
      rw [hdm, hnq]
      rfl
    rw [if_pos (by rw [hany, Bool.or_true])]

unseal Rat.add Rat.mul Rat.sub Rat.inv in
theorem C10_witness :
    List.Sublist [("road_1", (1 : ℚ), (1 : ℚ)), ("S1", (1 : ℚ), (1 : ℚ))]
      (spec_spatial_index GcarParallel) ∧
    ("road_1", (1 : ℚ), (1 : ℚ)) ∈
      [("road_1", (1 : ℚ), (1 : ℚ)), ("S1", (1 : ℚ), (1 : ℚ))] ∧
    build_spatial_index GzeroLat = .error "ValueError" :=
  ⟨(C10_spatial_index_truthiness GcarParallel).1
     [("road_1", 1, 1), ("S1", 1, 1)] (by rfl),
   (C10_spatial_index_truthiness GcarParallel).2.1
     [("road_1", 1, 1), ("S1", 1, 1)] (by rfl)
     ("road_1", [("lat", .q 1), ("lon", .q 1)]) (by decide) (.q 1) (.q 1)
     (by decide) (by decide) (by decide) (by decide),
   (C10_spatial_index_truthiness GzeroLat).2.2.1 (by rfl)⟩

unseal Rat.add Rat.mul Rat.sub Rat.inv in
theorem C10_counterexample :
    spec_spatial_index GzeroLat = [("N1", 0, 10)] ∧
    spatialRows GzeroLat = [] ∧
    build_spatial_index GzeroLat = .error "ValueError" :=
  ⟨by decide, rfl, rfl⟩

end GreenGraph
